import Mathlib

/-!
Verification development for the Nova chat engine (`src/nova-algorithm.js`).

The file shallowly embeds the second (main) engine of `nova-algorithm.js` —
the BM25/context-aware iteration that begins after the v3 engine — and proves
or refutes the frozen claims about it.

Modelling conventions:
* JS strings are modelled as `List Char` (`Str`); JS string library calls are
  re-implemented on `List Char` so that concrete evaluation is possible.
  ASCII inputs are assumed where JS is Unicode-aware (`toLowerCase`, `\s`,
  `\w`), which covers every string the engine manipulates.
* JS numbers are modelled as `ℝ`; counters that are provably integral
  (term frequencies, document lengths) are modelled as `ℕ` and cast where
  they enter real arithmetic.  `Math.log` is `Real.log`, `Math.sqrt` is
  `Real.sqrt`, `x ** y` is `Real.rpow`.
* `x || d` on JS numbers/strings (falsy fallback) is modelled by the
  explicit `jsOr*` helpers (`0`, `""`, `undefined`/`null` are falsy).
* JS objects/`Map`s used as dictionaries are insertion-ordered association
  lists; `Map.set`/`obj[k] = v` keeps the position of an existing key and
  appends a fresh key, which `jsMapSet`/`bagAdd` reproduce.
* `Array.prototype.sort` with comparator `(a, b) => b.score - a.score` is a
  stable descending sort (ES2019 requires stability); it is modelled by the
  stable `List.insertionSort (fun a b => b.score ≤ a.score)`.
* `Date.now()` is passed explicitly as a real parameter `t` (milliseconds).
* `Math.random`-based shuffling is passed explicitly as an oracle
  `rng : List Str → List Str` applied exactly where the source shuffles.
* `localStorage` traffic (`savePersistedData`) writes outside the engine's
  in-memory state and reads nothing back during a query, so it does not
  appear in the engine state; `loadPersistedData`'s per-document weight
  computation is modelled by `loadFact` taking the stored record explicitly.
-/

namespace Nova

/-- JS strings as character lists. -/
abbrev Str := List Char

/-- `s || d` for an optional JS number: `undefined`/`null` and `0` are falsy. -/
noncomputable def jsOrR (x : Option ℝ) (d : ℝ) : ℝ :=
  match x with
  | some v => if v = 0 then d else v
  | none => d

/-- `n || 1` on a JS array length (a natural number). -/
def jsOrLen (n : ℕ) : ℕ := if n = 0 then 1 else n

/-- `v || d` for a JS number already at hand. -/
noncomputable def jsOrNum (v d : ℝ) : ℝ := if v = 0 then d else v

/-- `s || d` for an optional JS string: `undefined`/`null` and `""` are falsy. -/
def jsOrStr (x : Option Str) (d : Str) : Str :=
  match x with
  | some s => if s = [] then d else s
  | none => d

/-- Splits a character list at every character satisfying `p`, keeping empty
segments, like `String.prototype.split` with a single-character separator
(and, once empty segments are filtered, like splitting on a `+`-run regex). -/
def chSplit (p : Char → Bool) : List Char → List Char → List (List Char)
  | [], acc => [acc.reverse]
  | c :: cs, acc =>
    if p c then acc.reverse :: chSplit p cs [] else chSplit p cs (c :: acc)

/-- Splitting on runs of whitespace like `split(/\s+/)`: maximal whitespace
runs are single separators (so interior runs do not create empty segments),
while leading/trailing whitespace still produces an empty segment, exactly as
in JS.  The `inWs` flag records that the previous character was part of a
separator run. -/
def wsSplitGo (inWs : Bool) (acc : Str) : Str → List Str
  | [] => [acc.reverse]
  | c :: cs =>
    if c.isWhitespace then
      if inWs then wsSplitGo true acc cs
      else acc.reverse :: wsSplitGo true [] cs
    else wsSplitGo false (c :: acc) cs

/-- `s.split(/\s+/)` on a JS string. -/
def wsSplit (s : Str) : List Str := wsSplitGo false [] s

/-- Case-sensitive "starts with": first argument is the pattern. -/
def startsWithCh : Str → Str → Bool
  | [], _ => true
  | _ :: _, [] => false
  | a :: as, b :: bs => a == b && startsWithCh as bs

/-- Case-insensitive "starts with" (ASCII lowering, matching `/i`). -/
def startsWithCI : Str → Str → Bool
  | [], _ => true
  | _ :: _, [] => false
  | a :: as, b :: bs => a.toLower == b.toLower && startsWithCI as bs

/-- `hay.includes(pat)` — substring test, `"".includes("") = true`. -/
def containsStr : Str → Str → Bool
  | [], pat => pat == []
  | c :: rest, pat => startsWithCh pat (c :: rest) || containsStr rest pat

/-- `s.endsWith(pat)`. -/
def endsWithCh (pat s : Str) : Bool := startsWithCh pat.reverse s.reverse

/-- `s.toLowerCase()` (ASCII). -/
def lowerStr (s : Str) : Str := s.map Char.toLower

/-- `arr.join(sep)`. -/
def joinWith (sep : Str) : List Str → Str
  | [] => []
  | [x] => x
  | x :: y :: ys => x ++ sep ++ joinWith sep (y :: ys)

/-- `arr.join(" ")`. -/
def joinSpace (l : List Str) : Str := joinWith [' '] l

/-- `s.replace(pat, rep)` with a plain-string pattern: JS replaces only the
first occurrence. -/
def replaceFirst (pat rep : Str) : Str → Str
  | [] => []
  | c :: rest =>
    if pat ≠ [] && startsWithCh pat (c :: rest) then rep ++ (c :: rest).drop pat.length
    else c :: replaceFirst pat rep rest

/-- `obj[k] = v` / `Map.set`: an existing key keeps its position, a fresh key
is appended (JS insertion order). -/
def jsMapSet {β : Type} : List (Str × β) → Str → β → List (Str × β)
  | [], k, v => [(k, v)]
  | (k', v') :: rest, k, v =>
    if k' == k then (k', v) :: rest else (k', v') :: jsMapSet rest k v

/-- `obj[k] = v` for a numeric-keyed JS object (used for citation maps). -/
def natMapSet : List (ℕ × ℕ) → ℕ → ℕ → List (ℕ × ℕ)
  | [], k, v => [(k, v)]
  | (k', v') :: rest, k, v =>
    if k' == k then (k', v) :: rest else (k', v') :: natMapSet rest k v

/-- `[...new Set(arr)]` — deduplicate keeping first occurrences. -/
def jsUniq {α : Type} [BEq α] (l : List α) : List α :=
  l.foldl (fun acc x => if acc.contains x then acc else acc ++ [x]) []

/- ---------- TextNormalizer: `smartTokenize` and its helpers ---------- -/

/-- `STOP_WORDS` of the main engine. -/
def STOP_WORDS : List Str :=
  (["a", "an", "and", "are", "as", "at", "be", "by", "for", "from", "has",
    "have", "in", "is", "it", "of", "on", "or", "that", "the", "this", "to",
    "with", "what", "which", "when", "where", "how", "why"] : List String).map
    String.data

/-- `SYNONYMS` of the main engine (single-expansion table). -/
def SYNONYMS : List (Str × Str) :=
  ([("ai", "artificial intelligence"), ("llm", "large language model"),
    ("vr", "virtual reality"), ("btc", "bitcoin")] : List (String × String)).map
    (fun p => (p.1.data, p.2.data))

/-- `STEM_SUFFIXES`, tried in order; the first matching suffix is stripped. -/
def STEM_SUFFIXES : List Str := (["ing", "ed", "es", "s"] : List String).map String.data

/-- Inner loop of `stemWord`. -/
def stemGo (w : Str) : List Str → Str
  | [] => w
  | suf :: rest =>
    if endsWithCh suf w then w.take (w.length - suf.length) else stemGo w rest

/-- `stemWord`: strip the first matching suffix from `STEM_SUFFIXES`. -/
def stemWord (w : Str) : Str := stemGo w STEM_SUFFIXES

/-- Inner loop of `splitCamelCase`: a boundary sits between a lowercase
character and an uppercase one (`word[i] === word[i].toUpperCase() &&
word[i-1] === word[i-1].toLowerCase()`). -/
def splitCamelGo (prev : Char) (acc : Str) : Str → List Str
  | [] => [acc.reverse]
  | c :: cs =>
    if c == c.toUpper && prev == prev.toLower then
      acc.reverse :: splitCamelGo c [c] cs
    else splitCamelGo c (c :: acc) cs

/-- `splitCamelCase`. -/
def splitCamelCase (w : Str) : List Str :=
  match w with
  | [] => [[]]
  | c :: cs => splitCamelGo c [c] cs

/-- The pure tokenization pipeline of `smartTokenize` (without the cache):
split on non-alphanumeric runs, expand one-word synonyms, split expansions on
spaces/underscores/camel-case, stem, lowercase, and drop stop words and
one-character tokens. -/
def pureTokenize (text : Str) : List Str :=
  let potentialWords := (chSplit (fun c => !c.isAlphanum) text []).filter (· ≠ [])
  let toks := potentialWords.flatMap (fun word =>
    -- `SYNONYMS[word.toLowerCase()] || word`
    let expanded := ((SYNONYMS.lookup (lowerStr word)).getD word)
    if expanded.contains ' ' then
      (chSplit (· == ' ') expanded []).map (fun w => stemWord (lowerStr w))
    else if expanded.contains '_' then
      (chSplit (· == '_') expanded []).map stemWord
    else if expanded.any (fun c => decide ('A' ≤ c) && decide (c ≤ 'Z')) then
      (splitCamelCase expanded).map stemWord
    else [stemWord expanded])
  (toks.map lowerStr).filter (fun t => !STOP_WORDS.contains t && t.length > 1)

/-- `MAX_CACHE_SIZE`. -/
def MAX_CACHE_SIZE : ℕ := 1000

/-- The module-level `tokenCache` `Map`, in insertion order. -/
structure TokCache where
  entries : List (Str × List Str)

/-- `smartTokenize`: cache hit returns the stored value unchanged; a miss
computes, appends the new entry, and — if the capacity is now exceeded —
deletes the first-inserted key (`tokenCache.keys().next().value`). -/
def smartTokenizeSt (text : Str) (tc : TokCache) : List Str × TokCache :=
  match tc.entries.lookup text with
  | some r => (r, tc)
  | none =>
    let result := pureTokenize text
    let es := tc.entries ++ [(text, result)]
    (result, ⟨if MAX_CACHE_SIZE < es.length then es.tail else es⟩)

/- ---------- Subwords, n-grams, bags, hashing, embeddings ---------- -/

/-- `generateSubwords`: all 3-character windows of a word longer than 3. -/
def generateSubwords (word : Str) : List Str :=
  if word.length ≤ 3 then []
  else (List.range (word.length - 2)).map (fun i => (word.drop i).take 3)

/-- `ngrams(arr, n)` of the main engine, joined with a single space. -/
def ngramsJoin (arr : List Str) (n : ℕ) : List Str :=
  (List.range (arr.length + 1 - n)).map (fun i => joinSpace ((arr.drop i).take n))

/-- `extractPhrases`: 2- and 3-token windows. -/
def extractPhrases (tokens : List Str) : List Str :=
  ngramsJoin tokens 2 ++ ngramsJoin tokens 3

/-- One step of `bag`: `obj[word] = (obj[word] || 0) + 1`. -/
def bagAdd : List (Str × ℕ) → Str → List (Str × ℕ)
  | [], w => [(w, 1)]
  | (k, v) :: rest, w =>
    if k == w then (k, v + 1) :: rest else (k, v) :: bagAdd rest w

/-- `bag(arr)` — multiset counts in insertion order.  Counts are integral in
JS too; they are cast to `ℝ` where they enter arithmetic. -/
def bagNat (arr : List Str) : List (Str × ℕ) := arr.foldl bagAdd []

/-- `simpleHash`: `hash = (hash * 31 + charCode) & 0x7fffffff` per character.
The intermediate value stays below `2^36`, exact in a float64, and the
`ToInt32`-plus-mask therefore equals reduction modulo `2^31`. -/
def simpleHash (s : Str) : ℕ :=
  s.foldl (fun h c => (h * 31 + c.toNat) % 2 ^ 31) 0

/-- `EMBED_DIM`. -/
def EMBED_DIM : ℕ := 100

/-- `pseudoEmbed`: hash every 3-character subword into a bucket, accumulate
`1 / (trigrams.length || 1)`, then divide by the L2 norm (`|| 1` when the norm
is zero). -/
noncomputable def pseudoEmbed (tokens : List Str) : List ℝ :=
  let trigrams := tokens.flatMap generateSubwords
  let vec := trigrams.foldl
    (fun v tri =>
      let idx := simpleHash tri % EMBED_DIM
      v.set idx (v.getD idx 0 + 1 / (jsOrLen trigrams.length : ℝ)))
    (List.replicate EMBED_DIM (0 : ℝ))
  let norm := Real.sqrt ((vec.map (fun x => x ^ 2)).sum)
  vec.map (· / jsOrNum norm 1)

/-- The vector `cos` of the main engine.  The JS loop runs over `a.length`
positions; every call site passes two `EMBED_DIM`-vectors, which `zipWith`
and `take a.length` reproduce.  `dot ? dot / … : 0` returns `0` when the dot
product is zero. -/
noncomputable def cosl (a b : List ℝ) : ℝ :=
  let dot := (List.zipWith (· * ·) a b).sum
  let magA := (a.map (fun x => x ^ 2)).sum
  let magB := ((b.take a.length).map (fun x => x ^ 2)).sum
  if dot = 0 then 0 else dot / Real.sqrt (magA * magB)

/-- `new Map(pairs)`: later pairs overwrite earlier ones in place. -/
noncomputable def jsMapOfR (l : List (Str × ℝ)) : List (Str × ℝ) :=
  l.foldl (fun m kv => jsMapSet m kv.1 kv.2) []

/-- `weightedTrigramSimilarity`: IDF-weighted Jaccard similarity over the
3-character subwords of two tokens (`union ? intersection / union : 0`). -/
noncomputable def weightedTrigramSimilarity (a b : Str) (idf : List (Str × ℝ)) : ℝ :=
  let aT := jsMapOfR ((generateSubwords a).map (fun t => (t, jsOrR (idf.lookup t) 1)))
  let bT := jsMapOfR ((generateSubwords b).map (fun t => (t, jsOrR (idf.lookup t) 1)))
  let allT := jsUniq (aT.map Prod.fst ++ bT.map Prod.fst)
  let inter := (allT.map (fun t => min (jsOrR (aT.lookup t) 0) (jsOrR (bT.lookup t) 0))).sum
  let uni := (allT.map (fun t => max (jsOrR (aT.lookup t) 0) (jsOrR (bT.lookup t) 0))).sum
  if uni = 0 then 0 else inter / uni

/- ---------- Fixed tables and intent detection ---------- -/

/-- `RELATED_TERMS`. -/
def RELATED_TERMS : List (Str × List Str) :=
  ([("ai", ["machine-learning", "neural-networks", "deep-learning"]),
    ("blockchain", ["decentralized", "ledger", "cryptocurrency"]),
    ("quantum", ["qubits", "superposition", "entanglement"]),
    ("health", ["wellness", "nutrition", "fitness"]),
    ("environment", ["sustainability", "climate", "ecology"])] :
      List (String × List String)).map
    (fun p => (p.1.data, p.2.map String.data))

/-- `CONCEPTS`. -/
def CONCEPTS : List (Str × List Str) :=
  ([("future-tech", ["ai", "quantum-tech", "blockchain", "digital-twins", "augmented-reality"]),
    ("green-tech", ["environment", "biochar", "carbon-capture", "offshore-wind"]),
    ("data-security", ["zero-trust", "cryptography", "blockchain"]),
    ("human-augmentation", ["health", "wearable-tech", "augmented-reality", "soft-robotics"])] :
      List (String × List String)).map
    (fun p => (p.1.data, p.2.map String.data))

/-- JS `\w` (ASCII). -/
def isWordCh (c : Char) : Bool := c.isAlphanum || c == '_'

/-- JS `\s` (ASCII approximation; queries contain no exotic whitespace). -/
def isWsCh (c : Char) : Bool := c.isWhitespace

/-- Match of the leading keyword alternation `(explain|what is|define)` on an
already-lowercased string; returns the matched length. -/
def defKeywordAt (s : Str) : Option ℕ :=
  if startsWithCh "explain".data s then some 7
  else if startsWithCh "what is".data s then some 7
  else if startsWithCh "define".data s then some 6
  else none

/-- `/^(explain|what is|define)\s+/i`. -/
def testDefinition (q : Str) : Bool :=
  let s := lowerStr q
  match defKeywordAt s with
  | some n =>
    match s.drop n with
    | c :: _ => isWsCh c
    | [] => false
  | none => false

/-- Scan for `/compare.*to/i`: some occurrence of `compare` followed
(anywhere later) by `to`. -/
def compareGo : Str → Bool
  | [] => false
  | c :: rest =>
    (startsWithCh "compare".data (c :: rest) && containsStr ((c :: rest).drop 7) "to".data)
      || compareGo rest

/-- `/compare.*to/i`. -/
def testComparison (q : Str) : Bool := compareGo (lowerStr q)

/-- Scan for `/(list|top|best).*of/i`. -/
def listGo : Str → Bool
  | [] => false
  | c :: rest =>
    (startsWithCh "list".data (c :: rest) && containsStr ((c :: rest).drop 4) "of".data)
      || (startsWithCh "top".data (c :: rest) && containsStr ((c :: rest).drop 3) "of".data)
      || (startsWithCh "best".data (c :: rest) && containsStr ((c :: rest).drop 4) "of".data)
      || listGo rest

/-- `/(list|top|best).*of/i`. -/
def testList (q : Str) : Bool := listGo (lowerStr q)

/-- Tail of the weather pattern after the keyword: `\s*(in\s+[\w\s]+)?$`. -/
def weatherTailOk (r : Str) : Bool :=
  let r1 := r.dropWhile isWsCh
  r1 == [] ||
    (startsWithCh "in".data r1 &&
      (match r1.drop 2 with
       | [] => false
       | c :: cs => isWsCh c && cs ≠ [] && (c :: cs).all (fun d => isWordCh d || isWsCh d)))

/-- Scan for `/(weather|forecast)\s*(in\s+[\w\s]+)?$/i`. -/
def weatherGo : Str → Bool
  | [] => false
  | c :: rest =>
    (startsWithCh "weather".data (c :: rest) && weatherTailOk ((c :: rest).drop 7))
      || (startsWithCh "forecast".data (c :: rest) && weatherTailOk ((c :: rest).drop 8))
      || weatherGo rest

/-- `/(weather|forecast)\s*(in\s+[\w\s]+)?$/i`. -/
def testWeather (q : Str) : Bool := weatherGo (lowerStr q)

/-- Tail of the food pattern after the keyword: `\s+near\s+me`. -/
def foodTailOk (r : Str) : Bool :=
  match r with
  | [] => false
  | c :: _ =>
    isWsCh c &&
      (let r1 := r.dropWhile isWsCh
       startsWithCh "near".data r1 &&
        (match r1.drop 4 with
         | [] => false
         | d :: _ => isWsCh d && startsWithCh "me".data ((r1.drop 4).dropWhile isWsCh)))

/-- Scan for `/(food|restaurants)\s+near\s+me/i`. -/
def foodGo : Str → Bool
  | [] => false
  | c :: rest =>
    (startsWithCh "food".data (c :: rest) && foodTailOk ((c :: rest).drop 4))
      || (startsWithCh "restaurants".data (c :: rest) && foodTailOk ((c :: rest).drop 11))
      || foodGo rest

/-- `/(food|restaurants)\s+near\s+me/i`. -/
def testFood (q : Str) : Bool := foodGo (lowerStr q)

/-- Character class `[\w\s,.-]`. -/
def addrClassCh (c : Char) : Bool :=
  isWordCh c || isWsCh c || c == ',' || c == '.' || c == '-'

/-- Tail of the address pattern: `\s+[\w\s,.-]+$` (one whitespace plus at
least one class character, all the way to the end; whitespace is in the
class, so the split point is flexible). -/
def addrTailOk (r : Str) : Bool :=
  match r with
  | [] => false
  | c :: cs => isWsCh c && cs ≠ [] && (c :: cs).all addrClassCh

/-- `/^(search|address)\s+[\w\s,.-]+$/i`. -/
def testAddress (q : Str) : Bool :=
  let s := lowerStr q
  (startsWithCh "search".data s && addrTailOk (s.drop 6))
    || (startsWithCh "address".data s && addrTailOk (s.drop 7))

/-- `detectIntent`: the `INTENT_PATTERNS` object is evaluated in insertion
order and the final `general` pattern `/.*/` always matches. -/
def detectIntent (q : Str) : Str :=
  if testDefinition q then "definition".data
  else if testComparison q then "comparison".data
  else if testList q then "list".data
  else if testWeather q then "weather".data
  else if testFood q then "food".data
  else if testAddress q then "address".data
  else "general".data

/- ---------- Documents and the corpus build ---------- -/

/-- `fact.metadata` as consumed by the constructor and `loadPersistedData`.
`updatedAt` is the epoch-millisecond value of `new Date(metadata.updatedAt)`. -/
structure Metadata where
  subtopics : Option (List Str)
  category : Option Str
  priority : Option ℝ
  updatedAt : Option ℝ

/-- A knowledge-base document after the constructor's preprocessing pass
(lines 520–549): derived token statistics plus the mutable relevance state.
`weight` is undefined in JS until `loadPersistedData` runs; `mkFact` leaves
it at `0` and `loadFact`/`loadFactFresh` assign it. -/
structure Fact where
  id : ℕ
  text : Str
  keywords : List Str
  topic : Str
  category : Str
  subtopics : Option (List Str)
  priority : Option ℝ
  updatedAt : Option ℝ
  relatedTopics : List Str
  tokens : List Str
  docLen : ℕ
  bow : List (Str × ℕ)
  phrases : List Str
  embedding : List ℝ
  views : ℝ
  feedback : ℝ
  lastView : ℝ
  weight : ℝ

noncomputable instance : Inhabited Fact :=
  ⟨⟨0, [], [], [], [], none, none, none, [], [], 0, [], [], [], 0, 0, 0, 0⟩⟩

/-- The constructor's per-fact preprocessing (lines 520–549): category
default, tokenization of text+keywords+subtopics, document length, bag over
tokens ∪ subwords ∪ bigrams, phrases, pseudo-embedding, zeroed relevance
state.  `fact.topic.split('/')[0]` supplies the category default. -/
noncomputable def mkFact (id : ℕ) (text : Str) (keywords : List Str) (topic : Str)
    (md : Metadata) (relatedTopics : List Str) (now : ℝ) : Fact :=
  let category := jsOrStr md.category ((chSplit (· == '/') topic []).headD [])
  let words := pureTokenize
    (text ++ [' '] ++ joinSpace keywords ++ [' '] ++ jsOrStr (md.subtopics.map joinSpace) [])
  let subwords := words.flatMap generateSubwords
  let allTokens := words ++ subwords ++ ngramsJoin words 2
  { id := id, text := text, keywords := keywords, topic := topic,
    category := category, subtopics := md.subtopics, priority := md.priority,
    updatedAt := md.updatedAt, relatedTopics := relatedTopics,
    tokens := words, docLen := words.length, bow := bagNat allTokens,
    phrases := extractPhrases words, embedding := pseudoEmbed words,
    views := 0, feedback := 0, lastView := now, weight := 0 }

/-- Document-frequency table over the whole corpus (`this.df`), in insertion
order of bag keys. -/
def dfOf (kb : List Fact) : List (Str × ℕ) :=
  kb.foldl (fun m f => f.bow.foldl (fun m2 kv => bagAdd m2 kv.1) m) []

/-- `this.idf`: BM25-style IDF per `df` key. -/
noncomputable def buildIdf (kb : List Fact) : List (Str × ℝ) :=
  (dfOf kb).map (fun kv =>
    (kv.1, Real.log (((kb.length : ℝ) - (kv.2 : ℝ) + 0.5) / ((kv.2 : ℝ) + 0.5) + 1)))

/-- `this.avgDocLen = this.totalDocLen / this.N`. -/
noncomputable def avgDocLenOf (kb : List Fact) : ℝ :=
  ((kb.map (fun f => (f.docLen : ℝ))).sum) / (kb.length : ℝ)

/-- `VIEW_DECAY`. -/
noncomputable def VIEW_DECAY : ℝ := 0.95

/-- A persisted per-document record `views[fact.id]`. -/
structure StoredView where
  count : ℝ
  lastView : ℝ
  feedback : ℝ

/-- `loadPersistedData`, per document (lines 566–577): with a stored record,
decay the view count by `0.95 ** daysSince` and set
`weight = min(1.0, (priority || 0.8) + 0.04*log(1+views) + 0.02*feedback)` —
note: no lower clamp; without a record, `weight = priority || 0.8` —
no clamp at all. -/
noncomputable def loadFact (f : Fact) (stored : Option StoredView) (now : ℝ) : Fact :=
  match stored with
  | some s =>
    let daysSince := (now - s.lastView) / (1000 * 60 * 60 * 24)
    let views := s.count * VIEW_DECAY ^ daysSince
    { f with views := views, lastView := s.lastView, feedback := s.feedback,
             weight := min 1
               (jsOrR f.priority 0.8 + 0.04 * Real.log (1 + views) + 0.02 * s.feedback) }
  | none => { f with weight := jsOrR f.priority 0.8 }

/-- `loadPersistedData` on a fresh session (no stored record). -/
noncomputable def loadFactFresh (f : Fact) : Fact := loadFact f none 0

/-- The top-K ranking side effect per entry (lines 824–828):
`views++; lastView = now; weight = min(1.0, weight + 0.04*log(1+views) +
0.02*feedback)` — again without a lower clamp.  In the source this runs on
the spread copies inside `ranked`, never on `this.kb`. -/
noncomputable def topKBump (f : Fact) (now : ℝ) : Fact :=
  let views := f.views + 1
  { f with views := views, lastView := now,
           weight := min 1 (f.weight + 0.04 * Real.log (1 + views) + 0.02 * f.feedback) }

/-- `applyFeedback`'s per-fact update (lines 694–695):
`feedback += value; weight = min(1.0, max(0.7, weight + 0.02 * value))`. -/
noncomputable def applyFeedbackFact (f : Fact) (v : ℝ) : Fact :=
  { f with feedback := f.feedback + v,
           weight := min 1 (max 0.7 (f.weight + 0.02 * v)) }

/- ---------- Session context and engine state ---------- -/

/-- One entry of `this.context.history` (only `query` is read by
`processQuery`). -/
structure HistEntry where
  query : Str
  topic : Option Str

/-- `this.context`. -/
structure Ctx where
  currentTopic : Option Str
  lastTopic : Option Str
  currentCategory : Option Str
  history : List HistEntry
  confidence : ℝ

/-- The `Response` object shape produced by `processQuery` (the fallback
response carries no `score` field, modelled as `none`). -/
structure Response where
  topic : Str
  category : Str
  main : Str
  details : List Str
  related : List Str
  cites : List (ℕ × ℕ)
  score : Option ℝ

/-- The in-memory engine state read and written by `processQuery` /
`applyFeedback`.  `subtopicKeys`/`categoryKeys` are the key sets of
`this.subtopicIndex`/`this.categoryIndex` (only `.has` is consulted during a
query).  The token cache is module-level, not engine state; engine
definitions use `pureTokenize`, which `smartTokenizeSt` provably equals on
well-formed caches. -/
structure EngineState where
  kb : List Fact
  idf : List (Str × ℝ)
  avgDocLen : ℝ
  context : Ctx
  queryCache : List (Str × Response)
  bookmarks : List Str
  queryPatterns : List (Str × ℝ)
  subtopicKeys : List Str
  categoryKeys : List Str

/-- `{ ...fact, score }` — the per-query scored copy of a document. -/
structure RankedResult where
  fact : Fact
  score : ℝ

noncomputable instance : Inhabited RankedResult := ⟨⟨default, 0⟩⟩

/- ---------- Query analysis (lines 734–774) ---------- -/

/-- `qBow[term] = (qBow[term] || 0) + w` (also used for the concept
profile's `+ 1` increments). -/
noncomputable def qBowAdd : List (Str × ℝ) → Str → ℝ → List (Str × ℝ)
  | [], k, w => [(k, w)]
  | (k', v) :: rest, k, w =>
    if k' == k then (k', v + w) :: rest else (k', v) :: qBowAdd rest k w

/-- Concept tags of a token list (`CONCEPTS` entries whose keyword list
meets the tokens). -/
def conceptsOfTokens (words : List Str) : List Str :=
  (CONCEPTS.filter (fun c => words.any (fun w => c.2.contains w))).map Prod.fst

/-- The per-query analysis state of `processQuery` before ranking. -/
structure QueryCtx where
  words : List Str
  queryPhrases : List Str
  totalPhrases : ℕ
  qBow : List (Str × ℝ)
  queryConcepts : List Str
  querySubtopics : List Str
  queryCategories : List Str
  qEmbedding : List ℝ
  userConceptProfile : List (Str × ℝ)
  numQueries : ℕ

/-- Lines 734–774: tokenize, bag, semantic expansion with weight `0.5`,
short-query history blending with weights `{0.4,0.3,0.2} × confidence`,
concept/subtopic/category tagging, query pseudo-embedding over the `qBow`
keys, and the history concept profile. -/
noncomputable def queryCtxOf (q : Str) (st : EngineState) : QueryCtx :=
  let words := pureTokenize q
  let queryPhrases := extractPhrases words
  let qBow0 : List (Str × ℝ) := (bagNat words).map (fun kv => (kv.1, (kv.2 : ℝ)))
  let expandedTokens := words.flatMap
    (fun w => ((RELATED_TERMS.lookup w).getD []).map (fun t => (t, (0.5 : ℝ))))
  let qBow1 := expandedTokens.foldl (fun m tw => qBowAdd m tw.1 tw.2) qBow0
  let qBow2 :=
    if words.length < 4 ∧ 0 < st.context.history.length then
      let lastQueries := (st.context.history.drop (st.context.history.length - 3)).reverse
      lastQueries.enum.foldl
        (fun m ih =>
          let w := (([0.4, 0.3, 0.2] : List ℝ).getD ih.1 0) * st.context.confidence
          (pureTokenize ih.2.query).foldl (fun m2 tk => qBowAdd m2 tk w) m)
        qBow1
    else qBow1
  let profile := st.context.history.foldl
    (fun m h =>
      (conceptsOfTokens (pureTokenize h.query)).foldl (fun m2 c => qBowAdd m2 c 1) m)
    []
  { words := words, queryPhrases := queryPhrases,
    totalPhrases := jsOrLen queryPhrases.length, qBow := qBow2,
    queryConcepts := conceptsOfTokens words,
    querySubtopics := words.filter (fun w => st.subtopicKeys.contains w),
    queryCategories := words.filter (fun w => st.categoryKeys.contains w),
    qEmbedding := pseudoEmbed (qBow2.map Prod.fst),
    userConceptProfile := profile, numQueries := st.context.history.length }

/- ---------- Scoring (lines 776–813) ---------- -/

/-- The BM25 accumulation: for every `qBow` key with a truthy document term
frequency, add `idf(t)·tf·(k1+1) / (tf + k1·(1 − b + b·docLen/avgDocLen))`
with `k1 = 1.2`, `b = 0.75`; `this.idf[term] || 0`. -/
noncomputable def bm25Of (qBow : List (Str × ℝ)) (idf : List (Str × ℝ)) (avg : ℝ)
    (f : Fact) : ℝ :=
  qBow.foldl
    (fun s kv =>
      match f.bow.lookup kv.1 with
      | some tf =>
        if tf = 0 then s
        else
          let k1 : ℝ := 1.2
          let b : ℝ := 0.75
          s + jsOrR (idf.lookup kv.1) 0 * (tf : ℝ) * (k1 + 1) /
            ((tf : ℝ) + k1 * (1 - b + b * (f.docLen : ℝ) / avg))
      | none => s)
    0

/-- Matched-phrase ratio: `|documentPhrases ∩ queryPhrases| /
(queryPhrases.length || 1)`. -/
noncomputable def phraseBoostOf (qc : QueryCtx) (f : Fact) : ℝ :=
  (((f.phrases.filter (fun p => qc.queryPhrases.contains p)).length : ℝ)) /
    (qc.totalPhrases : ℝ)

/-- Fuzzy bonus: count query tokens with some document token of
weighted-trigram similarity above `0.5`, then
`min(0.5, 0.25 · matches / (words.length || 1))`. -/
noncomputable def fuzzyBonusOf (qc : QueryCtx) (idf : List (Str × ℝ)) (f : Fact) : ℝ :=
  let fuzzyMatches := (qc.words.filter
    (fun qt => f.tokens.any (fun tk => decide (0.5 < weightedTrigramSimilarity qt tk idf)))).length
  min 0.5 (0.25 * ((fuzzyMatches : ℝ) / (jsOrLen qc.words.length : ℝ)))

/-- Concept tags of a document (`CONCEPTS` entries meeting its keywords). -/
def conceptsOfFact (f : Fact) : List Str :=
  (CONCEPTS.filter (fun c => f.keywords.any (fun k => c.2.contains k))).map Prod.fst

/-- Freshness: `max(0, 1 − (now − updatedAt)/yearMs)` when `updatedAt` is
present, else `0`.  This is the one scoring term that reads `Date.now()`. -/
noncomputable def freshnessOf (t : ℝ) (f : Fact) : ℝ :=
  match f.updatedAt with
  | some u => max 0 (1 - (t - u) / (1000 * 60 * 60 * 24 * 365))
  | none => 0

/-- The full per-document score (lines 777–813): the weighted signal blend
plus the context/category/concept/personalization/freshness/subtopic boosts,
the whole sum multiplied by the document's adaptive `weight`. -/
noncomputable def scoreFact (qc : QueryCtx) (ctx : Ctx) (idf : List (Str × ℝ))
    (avg : ℝ) (t : ℝ) (f : Fact) : ℝ :=
  let bm25 := bm25Of qc.qBow idf avg f
  let phraseBoost := phraseBoostOf qc f
  let fuzzyBonus := fuzzyBonusOf qc idf f
  let denseSim := cosl qc.qEmbedding f.embedding
  let contextBoost : ℝ := if ctx.currentTopic = some f.topic then 0.2 else 0
  let categoryBoost : ℝ := if ctx.currentCategory = some f.category then 0.15 else 0
  let factConcepts := conceptsOfFact f
  let conceptBoost : ℝ :=
    if qc.queryConcepts.any (fun c => factConcepts.contains c) then 0.15 else 0
  let personalizationScore :=
    (factConcepts.foldl (fun s c => s + ((qc.userConceptProfile.lookup c).getD 0)) 0) /
      (jsOrLen qc.numQueries : ℝ)
  let freshnessScore := freshnessOf t f
  let subtopicBoost : ℝ :=
    match f.subtopics with
    | some sts => if sts.any (fun s => qc.querySubtopics.contains s) then 0.1 else 0
    | none => 0
  let categoryMatchBoost : ℝ := if qc.queryCategories.contains f.category then 0.2 else 0
  (0.40 * bm25 + 0.20 * phraseBoost + 0.15 * fuzzyBonus + 0.10 * denseSim +
    contextBoost + categoryBoost + conceptBoost + 0.05 * personalizationScore +
    0.05 * freshnessScore + subtopicBoost + categoryMatchBoost) * f.weight

/-- Lines 776–816 given the analysis state: score every document, keep the
strict `score > 0.1` survivors, and sort by score descending.  The JS
comparator `(a, b) => b.score - a.score` with the ES2019-stable
`Array.prototype.sort` equals the stable `insertionSort` under
`b.score ≤ a.score`. -/
noncomputable def rankedOfQc (qc : QueryCtx) (st : EngineState) (t : ℝ) : List RankedResult :=
  ((st.kb.map (fun f => RankedResult.mk f (scoreFact qc st.context st.idf st.avgDocLen t f))).filter
      (fun r => decide ((0.1 : ℝ) < r.score))).insertionSort
    (fun a b => b.score ≤ a.score)

/-- The ranking computation of `processQuery` as a function of the query. -/
noncomputable def rankedOf (q : Str) (st : EngineState) (t : ℝ) : List RankedResult :=
  rankedOfQc (queryCtxOf q st) st t

/- ---------- Response composition (lines 880–976) ---------- -/

/-- One token's pass of `highlightTokens`: replace every case-insensitive
whole-word occurrence (`\b…\b`, flags `gi`) by `<mark>$&</mark>`.  The flag
argument records whether the previous character fails `\w` (so a word
boundary precedes the current position); matching resumes after a
replacement, as the JS global regex does. -/
def markWordGo (t0 : Char) (tt : Str) : Bool → Str → Str
  | _, [] => []
  | prevNonWord, c :: rest =>
    let tok := t0 :: tt
    let matched := (c :: rest).take tok.length
    if prevNonWord && startsWithCI tok (c :: rest) &&
        (match (c :: rest).drop tok.length with
         | [] => true
         | d :: _ => !isWordCh d) then
      "<mark>".data ++ matched ++ "</mark>".data ++
        markWordGo t0 tt (!isWordCh (matched.getLastD ' ')) ((c :: rest).drop tok.length)
    else c :: markWordGo t0 tt (!isWordCh c) rest
  termination_by _ s => s.length
  decreasing_by
    · simp only [List.length_drop, List.length_cons]; omega
    · simp only [List.length_cons]; omega

/-- `text.replace(new RegExp("\\b" + token + "\\b", "gi"), "<mark>$&</mark>")`.
Tokens are nonempty alphanumeric strings in every call; the empty token is
mapped to the identity. -/
def markWordAll (tok text : Str) : Str :=
  match tok with
  | [] => text
  | t0 :: tt => markWordGo t0 tt true text

/-- `highlightTokens` (lines 969–976): sequential whole-word replacement for
each query token. -/
def highlightTokens (text : Str) (queryTokens : List Str) : Str :=
  queryTokens.foldl (fun res tk => markWordAll tk res) text

/-- The citation marker `<sup>[k]</sup>` emitted by the templates. -/
def markerStr (k : ℕ) : Str := "<sup>[".data ++ (toString k).data ++ "]</sup>".data

/-- `Array.slice(0, Math.max(1, 50 - wordCount/2))` on the snippet words.
`slice` truncates its fractional bound toward zero, and taking `max` first
gives `max 1 ⌊50 - wc/2⌋ = max 1 (50 - ⌈wc/2⌉)`, which in truncated `ℕ`
subtraction is the expression below. -/
def snippetLen (wc : ℕ) : ℕ := max 1 (50 - (wc + 1) / 2)

/-- The shared support-appending loop of all four composers (word budget
`100`, snippet truncation, citation bookkeeping).  `tpl` is the intent's
`support` template, `keyOf`/`valOf` give the citation key and value for the
`i`-th support. -/
def supportStep (tpl : Str → ℕ → Str) (hl : Str → Str) (keyOf valOf : ℕ → ℕ)
    (acc : Str × List (ℕ × ℕ) × ℕ) (is : ℕ × Str) : Str × List (ℕ × ℕ) × ℕ :=
  if acc.2.2 < 100 then
    let snippet := joinSpace ((wsSplit is.2).take (snippetLen acc.2.2))
    (acc.1 ++ ' ' :: tpl (hl snippet) (keyOf is.1),
     natMapSet acc.2.1 (keyOf is.1) (valOf is.1),
     acc.2.2 + (wsSplit snippet).length)
  else acc

/-- The fold over the supports with the word-budget accumulator. -/
def composeSupports (tpl : Str → ℕ → Str) (hl : Str → Str) (keyOf valOf : ℕ → ℕ)
    (supports : List Str) (main0 : Str) (cites0 : List (ℕ × ℕ)) :
    Str × List (ℕ × ℕ) :=
  let res := supports.enum.foldl (supportStep tpl hl keyOf valOf)
    (main0, cites0, (wsSplit main0).length)
  (res.1, res.2.1)

/-- The final word-budget cut shared by all four composers:
`main.split(/\s+/).slice(0, 100).join(" ")` plus `"..."` unless the result
ends with a period. -/
def finalizeMain (main : Str) : Str :=
  let words := joinSpace ((wsSplit main).take 100)
  words ++ (if endsWithCh ".".data words then [] else "...".data)

/-- `support` template of the definition/comparison/list intents:
`text<sup>[idx]</sup>`. -/
def tplSupportPlain (text : Str) (idx : ℕ) : Str := text ++ markerStr idx

/-- `support` template of the general intent: the text is lowercased. -/
def tplSupportLower (text : Str) (idx : ℕ) : Str := lowerStr text ++ markerStr idx

/-- First element of a ranked list (`ranked[0]`, `facts[0]`; every use site
has a nonempty list). -/
noncomputable def headRR (l : List RankedResult) : RankedResult :=
  match l with
  | [] => default
  | r :: _ => r

/-- `facts[0].id` inside the support loops. -/
def headFactId (facts : List RankedResult) : ℕ :=
  match facts with
  | [] => 0
  | f :: _ => f.fact.id

/-- The connector loop of the general template: each further fact is joined
with `Similarly,` when the consecutive embeddings have cosine similarity
above `0.7`, else `In addition,`; its text is highlighted, lowercased, and
tagged with the next citation marker. -/
noncomputable def genConnector (prev f : RankedResult) : Str :=
  if (0.7 : ℝ) < cosl prev.fact.embedding f.fact.embedding then "Similarly,".data
  else "In addition,".data

/-- The recursion over the remaining facts of the general structure. -/
noncomputable def generalStructGo (hl : Str → Str) : RankedResult → ℕ → Str →
    List RankedResult → Str
  | _, _, acc, [] => acc
  | prev, i, acc, f :: fs =>
    generalStructGo hl f (i + 1)
      (acc ++ ' ' :: genConnector prev f ++ ' ' :: lowerStr (hl f.fact.text) ++ markerStr (i + 1))
      fs

/-- `responseTemplates.general.structure`.  The JS single-fact early return
produces the same value as the loop with an empty tail.  An empty fact list
would dereference `facts[0]` in JS; call sites always pass a nonempty list. -/
noncomputable def generalStructure (facts : List RankedResult) (hl : Str → Str) : Str :=
  match facts with
  | [] => []
  | f :: fs => generalStructGo hl f 1 (hl f.fact.text ++ markerStr 1) fs

/-- `composeGeneral` before the final word-budget cut: structure text plus
the support loop, with citation keys `i+1` for facts and
`i + facts.length + 1` for supports (support citation values are
`facts[0].id + i + 1`). -/
noncomputable def composeGeneralCore (facts : List RankedResult) (supports : List Str)
    (queryTokens : List Str) : Str × List (ℕ × ℕ) :=
  let hl := fun tx => highlightTokens tx queryTokens
  let main0 := generalStructure facts hl
  let cites0 := facts.enum.foldl (fun m p => natMapSet m (p.1 + 1) p.2.fact.id) []
  composeSupports tplSupportLower hl (fun i => i + facts.length + 1)
    (fun i => headFactId facts + i + 1) supports main0 cites0

/-- `composeGeneral` (lines 950–967). -/
noncomputable def composeGeneral (facts : List RankedResult) (supports : List Str)
    (queryTokens : List Str) : Str × List (ℕ × ℕ) :=
  let core := composeGeneralCore facts supports queryTokens
  (finalizeMain core.1, core.2)

/-- `responseTemplates.list.structure`: numbered, highlighted facts joined by
single spaces. -/
def listStructure (facts : List RankedResult) (hl : Str → Str) : Str :=
  joinSpace (facts.enum.map
    (fun p => (toString (p.1 + 1)).data ++ ". ".data ++ hl p.2.fact.text ++ markerStr (p.1 + 1)))

/-- `composeList` before the final cut.  Unlike the other three composers,
`composeList` declares `const main` (line 912) while its support loop still
executes `main += ...` (line 920); class bodies are strict-mode code, so the
assignment to the `const` binding throws a `TypeError`.  In the loop body
`wordCount` is only modified inside the guarded block that ends in the
throwing append, so the loop throws exactly when a support exists and the
structure text is under 100 words, and otherwise completes with the bare
structure and the fact citations.  `Except.error ()` is the propagated
`TypeError`. -/
noncomputable def composeListCore (facts : List RankedResult) (supports : List Str)
    (queryTokens : List Str) : Except Unit (Str × List (ℕ × ℕ)) :=
  let hl := fun tx => highlightTokens tx queryTokens
  let main0 := listStructure facts hl
  let cites0 := facts.enum.foldl (fun m p => natMapSet m (p.1 + 1) p.2.fact.id) []
  if supports.isEmpty = false ∧ (wsSplit main0).length < 100 then Except.error ()
  else Except.ok (main0, cites0)

/-- `composeList` (lines 908–925): the final word-budget cut on the
completing executions, the propagated `TypeError` otherwise. -/
noncomputable def composeList (facts : List RankedResult) (supports : List Str)
    (queryTokens : List Str) : Except Unit (Str × List (ℕ × ℕ)) :=
  (composeListCore facts supports queryTokens).map
    (fun core => (finalizeMain core.1, core.2))

/-- `explainTerm.charAt(0).toUpperCase() + explainTerm.slice(1)`. -/
def capitalizeCh : Str → Str
  | [] => []
  | c :: cs => c.toUpper :: cs

/-- `composeDefinition` before the final cut: the highlighted main text (or
the templated related-terms fallback when the term occurs in neither the
text nor the keywords), marker `[1]`, then supports with keys `i+2` and
values `mainFact.id + i + 1`. -/
noncomputable def composeDefinitionCore (mainFact : RankedResult) (supports : List Str)
    (queryTokens : List Str) (explainTerm : Str) : Str × List (ℕ × ℕ) :=
  let hl := fun tx => highlightTokens tx queryTokens
  let main1 :=
    if !containsStr (lowerStr mainFact.fact.text) explainTerm &&
        !mainFact.fact.keywords.contains explainTerm then
      capitalizeCh explainTerm ++ " is a ".data ++
        joinWith " or ".data ((RELATED_TERMS.lookup explainTerm).getD []) ++
        " technology.".data
    else hl mainFact.fact.text
  composeSupports tplSupportPlain hl (fun i => i + 2)
    (fun i => mainFact.fact.id + i + 1) supports (main1 ++ markerStr 1)
    [(1, mainFact.fact.id)]

/-- `composeDefinition` (lines 927–948). -/
noncomputable def composeDefinition (mainFact : RankedResult) (supports : List Str)
    (queryTokens : List Str) (explainTerm : Str) : Str × List (ℕ × ℕ) :=
  let core := composeDefinitionCore mainFact supports queryTokens explainTerm
  (finalizeMain core.1, core.2)

/-- `composeComparison` before the final cut.  With no facts the fixed
`No comparison available.` message is kept with an empty citation map; with
facts, the comparison structure emits markers `[1]`/`[2]`, the whole
assembled text is then highlighted (unlike the other intents), and supports
use keys `i+3` with values `facts[0].id + i + 1`. -/
noncomputable def composeComparisonCore (facts : List RankedResult) (supports : List Str)
    (queryTokens : List Str) : Str × List (ℕ × ℕ) :=
  let hl := fun tx => highlightTokens tx queryTokens
  match facts with
  | [] => ("No comparison available.".data, ([] : List (ℕ × ℕ)))
  | f1 :: rest =>
    let pair : Str × List (ℕ × ℕ) :=
      match rest with
      | [f2] =>
        (f1.fact.text ++ markerStr 1 ++ ' ' :: "In contrast, ".data ++
           lowerStr f2.fact.text ++ markerStr 2,
         [(1, f1.fact.id), (2, f2.fact.id)])
      | _ => (f1.fact.text ++ markerStr 1 ++ [' '], [(1, f1.fact.id)])
    composeSupports tplSupportPlain hl (fun i => i + 3)
      (fun i => f1.fact.id + i + 1) supports (hl pair.1) pair.2

/-- `composeComparison` (lines 880–906). -/
noncomputable def composeComparison (facts : List RankedResult) (supports : List Str)
    (queryTokens : List Str) : Str × List (ℕ × ℕ) :=
  let core := composeComparisonCore facts supports queryTokens
  (finalizeMain core.1, core.2)

/- ---------- Comparison entity parsing and the definition term ---------- -/

/-- Character class `[\w\s-]` of the comparison capture groups. -/
def compClassCh (c : Char) : Bool := isWordCh c || isWsCh c || c == '-'

/-- The trailing `\s+` before the second group, then the second group
`[\w\s-]+` (greedy, nothing follows it).  Greedily the `\s+` takes the whole
whitespace run; if no class character remains it backtracks one step, making
the run's last whitespace character the entire second group (whitespace is
in the class).  Further backtracking never helps: with the run's last
character already tried, shorter `\s+` only prepends whitespace to the same
failed/succeeded group. -/
def compG2After (y : Str) : Option Str :=
  let mw3 := (y.takeWhile isWsCh).length
  if mw3 = 0 then none
  else
    let g := (y.drop mw3).takeWhile compClassCh
    if g ≠ [] then some g
    else if 2 ≤ mw3 then some ((y.drop (mw3 - 1)).takeWhile compClassCh)
    else none

/-- The separator `\s+to\s+` and second group after a candidate first group:
the `\s+` before `to` cannot effectively backtrack, because any whitespace
it gives back would stand before the literal `to` and whitespace never
starts `to`.  So only the full whitespace run is viable. -/
def compSepAfter (v : Str) : Option Str :=
  let mw2 := (v.takeWhile isWsCh).length
  if mw2 = 0 then none
  else if startsWithCh "to".data (v.drop mw2) then compG2After ((v.drop mw2).drop 2)
  else none

/-- The greedy first capture group `[\w\s-]+`: its candidates are the
nonempty prefixes of the maximal class run (every matched character lies in
the class, whitespace included, so backtracking cannot escape this run),
tried longest first. -/
def compG1 (u : Str) : Option (Str × Str) :=
  let L := (u.takeWhile compClassCh).length
  (List.range L).findSome? (fun d =>
    let l := L - d
    match compSepAfter (u.drop l) with
    | some g2 => some (u.take l, g2)
    | none => none)

/-- After a candidate `compare`: the leading `\s+` (greedy, so its lengths
are tried longest first — a backtracked leading space becomes the head of
the first group, which is how whitespace-only captures arise), then the
first group and the rest of the pattern. -/
def compAfter (r : Str) : Option (Str × Str) :=
  let mw := (r.takeWhile isWsCh).length
  (List.range mw).findSome? (fun d => compG1 (r.drop (mw - d)))

/-- Scan for the leftmost viable `compare`. -/
def compFindGo : Str → Option (Str × Str)
  | [] => none
  | c :: rest =>
    match
      (if startsWithCh "compare".data (c :: rest) then compAfter ((c :: rest).drop 7)
       else none) with
    | some p => some p
    | none => compFindGo rest

/-- `query.match(/compare\s+([\w\s-]+)\s+to\s+([\w\s-]+)/i)?.slice(1, 3)`.
Matching is done on the lowercased query; the only consumer lowercases the
captured entities before use, so lowercased captures are observationally
equal to JS's case-preserving groups. -/
def comparisonEntities (q : Str) : Option (Str × Str) := compFindGo (lowerStr q)

/-- `query.replace(/^(explain|what is|define)\s+/i, "")`: strip the keyword
and the following whitespace run when the anchored pattern matches. -/
def stripDefKeyword (q : Str) : Str :=
  match defKeywordAt (lowerStr q) with
  | some n =>
    match (lowerStr q).drop n with
    | c :: _ => if isWsCh c then (q.drop n).dropWhile isWsCh else q
    | [] => q
  | none => q

/- ---------- General-intent main-fact selection (lines 858–867) ---------- -/

/-- The diversity loop: pick up to 3 facts while fewer than 2 topics are
used, the topic repeats, or picking is forced by `mainFacts.length + 1 ===
ranked.length`; returns the picked facts and, positionally faithful to the
by-reference `!mainFacts.includes(f)` filters, the non-picked rest in
original order. -/
def pickGo (total : ℕ) : List RankedResult → List RankedResult → List Str →
    List RankedResult × List RankedResult
  | [], main, _ => (main.reverse, [])
  | f :: fs, main, used =>
    if main.length < 3 then
      if used.length < 2 ∨ f.fact.topic ∈ used ∨ main.length + 1 = total then
        pickGo total fs (f :: main)
          (if f.fact.topic ∈ used then used else used ++ [f.fact.topic])
      else
        let r := pickGo total fs main used
        (r.1, f :: r.2)
    else (main.reverse, f :: fs)

/- ---------- Suggestion chips (lines 978–1027) ---------- -/

/-- `generateChips`.  The shuffle is the caller-supplied `rng` oracle; the
final while loop tops the pool up to 8 entries from lower-ranked documents. -/
noncomputable def generateChips (q : Str) (ranked : List RankedResult)
    (topic category intent : Str) (st : EngineState)
    (rng : List Str → List Str) : List Str :=
  let totalPatterns := (st.queryPatterns.map Prod.snd).sum + 1
  let intentBias := ((st.queryPatterns.lookup intent).getD 0) / totalPatterns
  let semanticChips := ((((ranked.drop 3).take 7).map
      (fun f => joinSpace ((chSplit (· == ' ') f.fact.text []).take 5) ++ "...".data)).filter
      (fun s => s.length ≤ 50)).take 2
  let deepDiveChips := (((pureTokenize q).take (if (0.5 : ℝ) < intentBias then 4 else 2)).map
      (fun tk => "How does ".data ++ tk ++ " work?".data)).filter (fun c => c.length ≤ 50)
  let stockChip := ["Future of ".data ++ topic].filter (fun c => c.length ≤ 50)
  let comparisonChip :=
    match st.context.lastTopic with
    | some l =>
      if l ≠ [] ∧ l ≠ topic then
        ["Compare ".data ++ topic ++ " to ".data ++ l].filter (fun c => c.length ≤ 50)
      else []
    | none => []
  let conceptChips := (((CONCEPTS.filter
      (fun c => c.2.any (fun k => (headRR ranked).fact.keywords.contains k))).map
      (fun c => "Explore ".data ++ replaceFirst "-".data " ".data c.1)).filter
      (fun c => c.length ≤ 50)).take 2
  let categoryChip :=
    if st.categoryKeys.contains category then
      ["More in ".data ++ category].filter (fun c => c.length ≤ 50)
    else []
  let relatedTopicChips := (((headRR ranked).fact.relatedTopics.map
      (fun tp => "Explore ".data ++ tp)).filter (fun c => c.length ≤ 50)).take 2
  let trending := ((st.queryPatterns.filter (fun kv => kv.1 ≠ intent)).insertionSort
      (fun a b => b.2 ≤ a.2)).head?
  let trendingChip :=
    match trending with
    | some kv => if kv.1 ≠ [] then ["Try a ".data ++ kv.1 ++ " query".data] else []
    | none => []
  let allChips := rng (jsUniq (semanticChips ++ deepDiveChips ++ stockChip ++
    comparisonChip ++ conceptChips ++ categoryChip ++ relatedTopicChips ++ trendingChip))
  let withExtras := (ranked.drop (allChips.length + 3)).foldl
    (fun chips r =>
      if chips.length < 8 then
        let extra := joinSpace ((chSplit (· == ' ') r.fact.text []).take 5) ++ "...".data
        if extra.length ≤ 50 ∧ chips.contains extra = false then chips ++ [extra] else chips
      else chips)
    allChips
  withExtras.take 8

/- ---------- `processQuery` (lines 731–877) ---------- -/

/-- The no-match fallback response (lines 818–822). -/
noncomputable def noInfoResponse (q : Str) (st : EngineState) : Response :=
  { topic := [], category := "General".data,
    main := "No info found for \"".data ++ q ++ "\". Try something else!".data,
    details := [], related := st.bookmarks.take 8, cites := [], score := none }

/-- `processQuery`.  The memo cache is consulted first; a miss runs analysis,
ranking, the top-8 view bump (which acts on the spread copies inside
`ranked`, leaving `this.kb` untouched), the intent-specific composer, the
details/chips assembly, and caches the response.  `savePersistedData` only
writes `localStorage` and so has no effect on the modelled state. -/
noncomputable def processQuery (q : Str) (st : EngineState) (t : ℝ)
    (rng : List Str → List Str) : Response × EngineState :=
  match st.queryCache.lookup q with
  | some r => (r, st)
  | none =>
    let qc := queryCtxOf q st
    let intent := detectIntent q
    let ranked := rankedOfQc qc st t
    if ranked.isEmpty then
      let resp := noInfoResponse q st
      (resp, { st with queryCache := jsMapSet st.queryCache q resp })
    else
      let rankedA := (ranked.take 8).map (fun r => { r with fact := topKBump r.fact t }) ++
        ranked.drop 8
      let topic := (headRR rankedA).fact.topic
      let category := (headRR rankedA).fact.category
      let branch : (Str × List (ℕ × ℕ)) × List RankedResult :=
        if intent = "comparison".data then
          match comparisonEntities q with
          | some e =>
            let o1 := rankedA.findIdx? (fun f =>
              containsStr (lowerStr f.fact.text) (lowerStr e.1) ||
                f.fact.keywords.any (fun k => containsStr k (lowerStr e.1)))
            let o2 := rankedA.findIdx? (fun f =>
              containsStr (lowerStr f.fact.text) (lowerStr e.2) ||
                f.fact.keywords.any (fun k => containsStr k (lowerStr e.2)))
            let mainIdxs := (o1.toList ++ o2.toList).take 2
            let mainFacts := mainIdxs.filterMap (fun i => rankedA.get? i)
            let rest := (rankedA.enum.filter
              (fun ir => (jsUniq mainIdxs).contains ir.1 = false)).map Prod.snd
            (composeComparison mainFacts ((rest.take 2).map (fun f => f.fact.text)) qc.words,
             rest)
          | none => (([], []), rankedA)
        else if intent = "list".data then
          -- A throwing `composeList` aborts the JS `processQuery` with no
          -- response and no cache write; the error arm below is a placeholder
          -- value for those aborting executions, and no theorem in this file
          -- evaluates `processQuery` on a list-intent query.
          match composeList (rankedA.take 3)
              (((rankedA.drop 3).take 2).map (fun f => f.fact.text)) qc.words with
          | Except.ok p => (p, rankedA.drop 3)
          | Except.error _ => (([], []), rankedA.drop 3)
        else if intent = "definition".data then
          let explainTerm := lowerStr (stripDefKeyword q)
          let mi := (rankedA.findIdx? (fun f =>
            f.fact.keywords.contains explainTerm ||
              containsStr (lowerStr f.fact.text) explainTerm)).getD 0
          let mainFact := (rankedA.get? mi).getD (headRR rankedA)
          let supports := ((rankedA.filter (fun f =>
            (f.fact.id != mainFact.fact.id) &&
              !containsStr (lowerStr f.fact.text) (lowerStr mainFact.fact.text))).take 2).map
            (fun f => f.fact.text)
          (composeDefinition mainFact supports qc.words explainTerm, rankedA.eraseIdx mi)
        else
          let pick := pickGo rankedA.length rankedA [] []
          (composeGeneral pick.1 ((pick.2.take 2).map (fun f => f.fact.text)) qc.words,
           pick.2)
      let resp : Response :=
        { topic := topic, category := category, main := branch.1.1,
          details := (branch.2.take 5).map (fun f => highlightTokens f.fact.text qc.words),
          related := generateChips q rankedA topic category intent st rng,
          cites := branch.1.2, score := some (headRR rankedA).score }
      (resp, { st with queryCache := jsMapSet st.queryCache q resp })

/- ---------- `applyFeedback` (lines 691–698) ---------- -/

/-- `this.kb.find(f => f.id === factId)` followed by the in-place mutation:
replace the first fact with a matching id by its updated copy. -/
noncomputable def updateKb (id : ℕ) (v : ℝ) : List Fact → List Fact
  | [] => []
  | f :: fs => if f.id == id then applyFeedbackFact f v :: fs else f :: updateKb id v fs

/-- `applyFeedback(factId, value)`: a found fact is updated (and the state
persisted to localStorage); an unknown id leaves everything unchanged. -/
noncomputable def applyFeedbackSt (id : ℕ) (v : ℝ) (st : EngineState) : EngineState :=
  if st.kb.any (fun f => f.id == id) then { st with kb := updateKb id v st.kb } else st

/- ---------- Concrete fixtures used by witnesses and counterexamples ---------- -/

/-- A metadata record with nothing set. -/
def mdEmpty : Metadata := ⟨none, none, none, none⟩

/-- The constructor's `queryPatterns` counters. -/
noncomputable def initPatterns : List (Str × ℝ) :=
  [("definition".data, 0), ("comparison".data, 0), ("list".data, 0),
   ("weather".data, 0), ("food".data, 0), ("address".data, 0), ("general".data, 0)]

/-- A two-token document with no metadata (id 0, topic `t`). -/
noncomputable def factB : Fact :=
  loadFactFresh (mkFact 0 "cat ran".data [] "t".data mdEmpty [] 0)

/-- A two-token document with `updatedAt = epoch 0` (id 1, topic `t`). -/
noncomputable def factA : Fact :=
  loadFactFresh (mkFact 1 "dog sat".data [] "t".data ⟨none, none, none, some 0⟩ [] 0)

/-- A session whose current topic is `t` (history empty). -/
noncomputable def ctx1 : Ctx := ⟨some "t".data, none, none, [], 0⟩

/-- A fresh session (no topics, no history). -/
noncomputable def ctx0 : Ctx := ⟨none, none, none, [], 0⟩

/-- Engine state: corpus `[factB]`, current topic `t`. -/
noncomputable def st1 : EngineState :=
  ⟨[factB], buildIdf [factB], avgDocLenOf [factB], ctx1, [], [], initPatterns,
   [], ["t".data]⟩

/-- Engine state: corpus `[factB, factA]`, current topic `t`. -/
noncomputable def st4 : EngineState :=
  ⟨[factB, factA], buildIdf [factB, factA], avgDocLenOf [factB, factA], ctx1, [], [],
   initPatterns, [], ["t".data]⟩

/-- Engine state: corpus `[factB]`, fresh session. -/
noncomputable def stFresh : EngineState :=
  ⟨[factB], buildIdf [factB], avgDocLenOf [factB], ctx0, [], [], initPatterns,
   [], ["t".data]⟩

/-- Engine state over the empty corpus. -/
noncomputable def stEmpty : EngineState :=
  ⟨[], [], avgDocLenOf [], ctx0, [], [], initPatterns, [], []⟩

/- ---------- Generic evaluation helpers ---------- -/

theorem factB_weight : factB.weight = 0.8 := by
  simp [factB, loadFactFresh, loadFact, mkFact, jsOrR, mdEmpty]

theorem factA_weight : factA.weight = 0.8 := by
  simp [factA, loadFactFresh, loadFact, mkFact, jsOrR]

theorem pseudoEmbed_no_subwords (ts : List Str) (h : ts.flatMap generateSubwords = []) :
    pseudoEmbed ts = List.replicate EMBED_DIM 0 := by
  unfold pseudoEmbed
  rw [h]
  simp [List.map_replicate, List.sum_replicate, Real.sqrt_zero, jsOrNum, zero_div]

theorem zipWith_replicate_zero_sum (b : List ℝ) (n : ℕ) :
    (List.zipWith (· * ·) (List.replicate n (0 : ℝ)) b).sum = 0 := by
  induction b generalizing n with
  | nil => simp
  | cons y ys ih =>
    cases n with
    | zero => simp
    | succ m => simp [List.replicate_succ, ih]

theorem cosl_zero_left (b : List ℝ) (n : ℕ) : cosl (List.replicate n 0) b = 0 := by
  unfold cosl
  rw [zipWith_replicate_zero_sum]
  simp

theorem weightedTrigramSimilarity_short (a b : Str) (idf : List (Str × ℝ))
    (ha : generateSubwords a = []) (hb : generateSubwords b = []) :
    weightedTrigramSimilarity a b idf = 0 := by
  unfold weightedTrigramSimilarity
  rw [ha, hb]
  simp [jsMapOfR, jsUniq]

theorem filter_contains_nil (l : List Str) :
    (l.filter fun p => (([] : List Str).contains p)) = [] := by
  induction l with
  | nil => rfl
  | cons x xs ih => simpa [List.contains] using ih

theorem any_contains_nil (l : List Str) :
    (l.any fun s => (([] : List Str).contains s)) = false := by
  induction l with
  | nil => rfl
  | cons x xs ih => simpa [List.contains] using ih

theorem foldl_add_lookup_nil (l : List Str) :
    (l.foldl (fun s c => s + (((([] : List (Str × ℝ)).lookup c).getD 0))) 0) = 0 := by
  have h : ∀ (x : ℝ), l.foldl (fun s c => s + (((([] : List (Str × ℝ)).lookup c).getD 0))) x = x := by
    induction l with
    | nil => intro x; rfl
    | cons c cs ih => intro x; simpa [List.lookup] using ih (x + 0)
  simpa using h 0

theorem lookup_jsMapSet_self {β : Type} (m : List (Str × β)) (k : Str) (v : β) :
    (jsMapSet m k v).lookup k = some v := by
  induction m with
  | nil => simp [jsMapSet, List.lookup]
  | cons kv rest ih =>
    rcases kv with ⟨k', v'⟩
    by_cases h : (k' == k) = true
    · have : k' = k := eq_of_beq h
      subst this
      simp [jsMapSet, List.lookup]
    · have hne : (k == k') = false := by
        apply Bool.eq_false_iff.mpr
        intro hkk
        have hk : k = k' := eq_of_beq hkk
        subst hk
        exact h (beq_self_eq_true k)
      simp only [jsMapSet, h, if_false, List.lookup, hne]
      exact ih

/- ---------- C10 ---------- -/

/-- C10: `applyFeedback` with a `documentId` matching no document in the
corpus is a no-op: it raises no error (the model is a total function) and
leaves every document's `feedbackScore` and `weight`, and all other engine
state, unchanged. -/
theorem C10_applyFeedback_unknown_id_noop (st : EngineState) (id : ℕ) (v : ℝ)
    (h : ∀ f ∈ st.kb, f.id ≠ id) : applyFeedbackSt id v st = st := by
  unfold applyFeedbackSt
  rw [if_neg]
  intro hc
  rcases List.any_eq_true.mp hc with ⟨f, hf, hp⟩
  exact h f hf (by simpa using hp)

/-- Witness for C10 at the concrete corpus `[factB]` and the unknown id 5. -/
theorem C10_witness : applyFeedbackSt 5 1 stFresh = stFresh := by
  have h : ∀ f ∈ stFresh.kb, f.id ≠ 5 := by
    intro f hf
    have hm : f = factB := by simpa [stFresh] using hf
    subst hm
    intro hid
    have : (5 : ℕ) = 0 := by
      have hB : factB.id = 0 := rfl
      rw [hB] at hid; omega
    omega
  exact C10_applyFeedback_unknown_id_noop stFresh 5 1 h

/- ---------- C2 ---------- -/

/-- C2 counterexample input: the document as built by the constructor
(priority defaulted), with a persisted record carrying `count = 0`,
`lastView = 0` and an accumulated `feedback = -10` (ten `-1` feedback
calls), reloaded at `now = 0`. -/
noncomputable def factC2 : Fact := mkFact 0 "cat ran".data [] "t".data mdEmpty [] 0

/-- C2 is false as stated: the persisted-view reload applies only the upper
clamp, so a sufficiently down-voted document reloads with weight
`min(1, 0.8 + 0.04·ln(1+0) + 0.02·(−10)) = 0.6 < 0.7`. -/
theorem C2_counterexample : (loadFact factC2 (some ⟨0, 0, -10⟩) 0).weight < 0.7 := by
  have hp : factC2.priority = none := rfl
  simp only [loadFact, hp, jsOrR]
  rw [zero_mul]
  norm_num [Real.log_one]

/-- C2 (amended): `applyFeedback` clamps the weight into `[0.7, 1.0]`; the
persisted-view reload and the top-K ranking side-effect clamp only from
above at `1.0` (no `0.7` floor, so negative feedback can push the weight
below the floor — see the counterexample); and the fresh-initialization
branch sets `weight = priority || 0.8` with no clamp at all. -/
theorem C2_weight_clamping_behavior :
    (∀ (f : Fact) (s : StoredView) (now : ℝ), (loadFact f (some s) now).weight ≤ 1) ∧
    (∀ (f : Fact) (now : ℝ), (loadFact f none now).weight = jsOrR f.priority 0.8) ∧
    (∀ (f : Fact) (now : ℝ), (topKBump f now).weight ≤ 1) ∧
    (∀ (f : Fact) (v : ℝ), 0.7 ≤ (applyFeedbackFact f v).weight ∧
      (applyFeedbackFact f v).weight ≤ 1) := by
  refine ⟨fun f s now => ?_, fun f now => rfl, fun f now => ?_, fun f v => ⟨?_, ?_⟩⟩
  · exact min_le_left _ _
  · exact min_le_left _ _
  · exact le_min (by norm_num) (le_max_left _ _)
  · exact min_le_left _ _

/- ---------- C3 ---------- -/

theorem find?_updateKb (kb : List Fact) (id : ℕ) (v : ℝ) (f : Fact)
    (h : kb.find? (fun g => g.id == id) = some f) :
    (updateKb id v kb).find? (fun g => g.id == id) = some (applyFeedbackFact f v) := by
  induction kb with
  | nil => simp [List.find?] at h
  | cons g gs ih =>
    by_cases hp : (g.id == id) = true
    · have hg : g = f := by
        have := h
        rw [List.find?] at this
        rw [hp] at this
        simpa using this
      subst hg
      have hid : (applyFeedbackFact g v).id = g.id := rfl
      rw [updateKb]
      rw [if_pos hp, List.find?]
      rw [show ((applyFeedbackFact g v).id == id) = true by rw [hid]; exact hp]
    · have hgs : gs.find? (fun g => g.id == id) = some f := by
        have := h
        rw [List.find?] at this
        rw [Bool.eq_false_iff.mpr hp] at this
        simpa using this
      rw [updateKb]
      rw [if_neg hp, List.find?]
      rw [Bool.eq_false_iff.mpr hp]
      simpa using ih hgs

/-- C3: for a document found by id, `applyFeedback` changes `feedbackScore`
by exactly the delta; a `+1` does not decrease the weight while it is at
most `1.0`, and a `-1` does not increase it while it is at least the `0.7`
floor. -/
theorem C3_feedback_monotone (st : EngineState) (id : ℕ) (f : Fact)
    (h : st.kb.find? (fun g => g.id == id) = some f) :
    (∀ v : ℝ,
      (applyFeedbackSt id v st).kb.find? (fun g => g.id == id) =
        some (applyFeedbackFact f v) ∧
      (applyFeedbackFact f v).feedback = f.feedback + v) ∧
    (f.weight ≤ 1 → f.weight ≤ (applyFeedbackFact f 1).weight) ∧
    (0.7 ≤ f.weight → (applyFeedbackFact f (-1)).weight ≤ f.weight) := by
  have hpf := List.find?_some h
  have hany : st.kb.any (fun g => g.id == id) = true :=
    List.any_eq_true.mpr ⟨f, List.mem_of_find?_eq_some h, by simpa using hpf⟩
  refine ⟨fun v => ⟨?_, rfl⟩, fun hle => ?_, fun hge => ?_⟩
  · unfold applyFeedbackSt
    rw [if_pos hany]
    exact find?_updateKb st.kb id v f h
  · show f.weight ≤ min 1 (max 0.7 (f.weight + 0.02 * 1))
    exact le_min hle (le_trans (by linarith) (le_max_right _ _))
  · show min 1 (max 0.7 (f.weight + 0.02 * (-1))) ≤ f.weight
    exact le_trans (min_le_right _ _) (max_le hge (by linarith))

/-- Witness for C3 on the concrete corpus `[factB]` (weight `0.8`). -/
theorem C3_witness :
    ((applyFeedbackSt 0 1 stFresh).kb.find? (fun g => g.id == 0) =
       some (applyFeedbackFact factB 1) ∧
     (applyFeedbackFact factB 1).feedback = factB.feedback + 1) ∧
    factB.weight ≤ (applyFeedbackFact factB 1).weight := by
  have h := C3_feedback_monotone stFresh 0 factB rfl
  exact ⟨h.1 1, h.2.1 (by rw [factB_weight]; norm_num)⟩

/- ---------- C9 ---------- -/

/-- C9: `processQuery` memoizes its full response keyed by the exact query
string: a cache hit returns the stored response and leaves the whole engine
state — in particular every document's `views`/`lastView`/`weight`/
`feedback` — untouched; and after any call (including the no-match
fallback) the returned response is stored in the cache under the query, so
a repeated identical query is a hit. -/
theorem C9_query_cache_memoizes (q : Str) (st : EngineState) (t : ℝ)
    (rng : List Str → List Str) :
    (∀ r, st.queryCache.lookup q = some r → processQuery q st t rng = (r, st)) ∧
    ((processQuery q st t rng).2.queryCache.lookup q = some (processQuery q st t rng).1) := by
  constructor
  · intro r hr
    unfold processQuery
    rw [hr]
  · unfold processQuery
    rcases hl : st.queryCache.lookup q with _ | r
    · by_cases he : (rankedOfQc (queryCtxOf q st) st t).isEmpty = true
      · simp only [he, if_true]
        exact lookup_jsMapSet_self _ _ _
      · simp only [Bool.eq_false_iff.mpr he, if_false]
        exact lookup_jsMapSet_self _ _ _
    · exact hl

/-- Witness for C9: a concrete cache hit returns the stored response with
the state unchanged, and the response stays stored. -/
noncomputable def respX : Response := ⟨"t".data, "t".data, "hi there".data, [], [], [], none⟩

/-- Engine state with a pre-populated query cache entry. -/
noncomputable def stC9 : EngineState :=
  ⟨[factB], buildIdf [factB], avgDocLenOf [factB], ctx1, [("hi".data, respX)], [],
   initPatterns, [], ["t".data]⟩

theorem C9_witness :
    processQuery "hi".data stC9 0 (fun l => l) = (respX, stC9) ∧
    ((processQuery "hi".data stC9 0 (fun l => l)).2.queryCache.lookup "hi".data =
      some (processQuery "hi".data stC9 0 (fun l => l)).1) := by
  have h := C9_query_cache_memoizes "hi".data stC9 0 (fun l => l)
  exact ⟨h.1 respX rfl, h.2⟩

/- ---------- C6 ---------- -/

/-- C6: when the ranking yields an empty list (no document clears the `0.1`
threshold) and the query is not cached, `processQuery` returns the fallback
response without error: its `details` list is empty and its `main` text
contains the literal query string. -/
theorem C6_empty_ranking_fallback (q : Str) (st : EngineState) (t : ℝ)
    (rng : List Str → List Str)
    (hc : st.queryCache.lookup q = none)
    (hr : rankedOf q st t = []) :
    (processQuery q st t rng).1.details = [] ∧
    ∃ a b : Str, (processQuery q st t rng).1.main = a ++ q ++ b := by
  unfold rankedOf at hr
  unfold processQuery
  rw [hc]
  simp only [hr, List.isEmpty_nil, if_true]
  exact ⟨rfl, "No info found for \"".data, "\". Try something else!".data, rfl⟩

/-- Witness for C6 on the empty corpus and the query `zzz nonsense`. -/
theorem C6_witness :
    (processQuery "zzz nonsense".data stEmpty 0 (fun l => l)).1.details = [] ∧
    ∃ a b : Str,
      (processQuery "zzz nonsense".data stEmpty 0 (fun l => l)).1.main =
        a ++ "zzz nonsense".data ++ b :=
  C6_empty_ranking_fallback "zzz nonsense".data stEmpty 0 (fun l => l) rfl rfl

/- ---------- C8 ---------- -/

theorem mem_of_lookup_eq_some {β : Type} (l : List (Str × β)) (k : Str) (v : β)
    (h : l.lookup k = some v) : (k, v) ∈ l := by
  induction l with
  | nil => simp [List.lookup] at h
  | cons kv rest ih =>
    rcases kv with ⟨k', v'⟩
    rw [List.lookup] at h
    by_cases hk : (k == k') = true
    · rw [hk] at h
      have hv : v' = v := by simpa using h
      have hkk : k = k' := eq_of_beq hk
      subst hv; subst hkk
      exact List.mem_cons_self _ _
    · rw [Bool.eq_false_iff.mpr hk] at h
      simp only at h
      exact List.mem_cons_of_mem _ (ih h)

/-- Well-formedness of the token cache: every entry stores exactly what the
tokenizer would recompute for its key, and the size is capacity-bounded. -/
def CacheWF (tc : TokCache) : Prop :=
  (∀ kv ∈ tc.entries, kv.2 = pureTokenize kv.1) ∧ tc.entries.length ≤ MAX_CACHE_SIZE

theorem tail_append_singleton {α : Type} (l : List α) (x : α) (h : l ≠ []) :
    (l ++ [x]).tail = l.tail ++ [x] := by
  cases l with
  | nil => exact absurd rfl h
  | cons a as => rfl

/-- C8: the tokenizer cache is keyed by the exact input string and
capacity-bounded at `MAX_CACHE_SIZE = 1000` entries; a hit returns the
cached value and leaves the cache completely unchanged (so a hit does not
refresh an entry's eviction position — FIFO, not LRU); a miss appends the
new entry and, exactly when the capacity was full, evicts the
first-inserted entry; and under well-formedness a cached key always maps to
the token sequence the tokenizer would recompute. -/
theorem C8_token_cache_fifo (tc : TokCache) (s : Str) (h : CacheWF tc) :
    (smartTokenizeSt s tc).1 = pureTokenize s ∧
    CacheWF (smartTokenizeSt s tc).2 ∧
    (∀ r, tc.entries.lookup s = some r → (smartTokenizeSt s tc).2 = tc) ∧
    (tc.entries.lookup s = none →
      (smartTokenizeSt s tc).2.entries =
        (if tc.entries.length = MAX_CACHE_SIZE then tc.entries.tail else tc.entries) ++
          [(s, pureTokenize s)]) := by
  rcases h with ⟨hwf, hlen⟩
  rcases hl : tc.entries.lookup s with _ | r
  · -- miss: append, evict the head exactly on overflow
    have heq : smartTokenizeSt s tc =
        (pureTokenize s,
         ⟨if MAX_CACHE_SIZE < (tc.entries ++ [(s, pureTokenize s)]).length
           then (tc.entries ++ [(s, pureTokenize s)]).tail
           else tc.entries ++ [(s, pureTokenize s)]⟩) := by
      unfold smartTokenizeSt
      simp only [hl]
    have hshape : (if MAX_CACHE_SIZE < (tc.entries ++ [(s, pureTokenize s)]).length
        then (tc.entries ++ [(s, pureTokenize s)]).tail
        else tc.entries ++ [(s, pureTokenize s)]) =
        (if tc.entries.length = MAX_CACHE_SIZE then tc.entries.tail else tc.entries) ++
          [(s, pureTokenize s)] := by
      rw [List.length_append, List.length_singleton]
      by_cases hfull : tc.entries.length = MAX_CACHE_SIZE
      · have hne : tc.entries ≠ [] := by
          intro hnil
          rw [hnil] at hfull
          simp [MAX_CACHE_SIZE] at hfull
        rw [if_pos (by omega), if_pos hfull, tail_append_singleton _ _ hne]
      · rw [if_neg (by omega), if_neg hfull]
    rw [heq]
    refine ⟨rfl, ⟨?_, ?_⟩, ?_, fun _ => hshape⟩
    · intro kv hkv
      simp only at hkv
      rw [hshape] at hkv
      rcases List.mem_append.mp hkv with hin | hin
      · have hmem : kv ∈ tc.entries := by
          by_cases hfull : tc.entries.length = MAX_CACHE_SIZE
          · rw [if_pos hfull] at hin
            exact List.mem_of_mem_tail hin
          · rw [if_neg hfull] at hin
            exact hin
        exact hwf kv hmem
      · rw [List.mem_singleton.mp hin]
    · simp only
      rw [hshape, List.length_append, List.length_singleton]
      have htl : tc.entries.tail.length = tc.entries.length - 1 := List.length_tail _
      by_cases hfull : tc.entries.length = MAX_CACHE_SIZE
      · rw [if_pos hfull]
        have hpos : 0 < MAX_CACHE_SIZE := by norm_num [MAX_CACHE_SIZE]
        omega
      · rw [if_neg hfull]
        omega
    · intro r hr
      exact absurd hr (by simp)
  · -- hit: the stored value is returned, nothing changes
    have heq : smartTokenizeSt s tc = (r, tc) := by
      unfold smartTokenizeSt
      simp only [hl]
    have hmem := mem_of_lookup_eq_some tc.entries s r hl
    rw [heq]
    refine ⟨hwf (s, r) hmem, ⟨hwf, hlen⟩, fun r2 _ => rfl, fun hn => ?_⟩
    exact absurd hn (by simp)

/-- Witness for C8 on the empty cache and the input `cat`. -/
theorem C8_witness :
    (smartTokenizeSt "cat".data ⟨[]⟩).1 = pureTokenize "cat".data ∧
    CacheWF (smartTokenizeSt "cat".data ⟨[]⟩).2 := by
  have h := C8_token_cache_fifo ⟨[]⟩ "cat".data
    ⟨fun kv hkv => absurd hkv (List.not_mem_nil kv), by norm_num [MAX_CACHE_SIZE]⟩
  exact ⟨h.1, h.2.1⟩

/- ---------- Concrete query-context and score evaluations ---------- -/

/-- The analysis state of the query `zz` on a session with empty history
(stated in the definitional normal form of `queryCtxOf`). -/
noncomputable def qcZZ : QueryCtx :=
  ⟨["zz".data], [], 1, [("zz".data, ((1 : ℕ) : ℝ))], [], [], [],
   pseudoEmbed ["zz".data], [], 0⟩

/-- The analysis state of a tokenless query on a session with empty
history. -/
noncomputable def qcE : QueryCtx :=
  ⟨[], [], 1, [], [], [], [], pseudoEmbed [], [], 0⟩

theorem queryCtx_zz_st1 : queryCtxOf "zz".data st1 = qcZZ := rfl

theorem queryCtx_zz_st4 : queryCtxOf "zz".data st4 = qcZZ := rfl

theorem queryCtx_blank_st1 : queryCtxOf ([] : Str) st1 = qcE := rfl

theorem queryCtx_blank (q : Str) (st : EngineState) (hq : pureTokenize q = [])
    (hh : st.context.history = []) : queryCtxOf q st = qcE := by
  unfold queryCtxOf
  simp only [hq, hh, List.map, List.flatMap, List.foldl, List.length,
    List.filter, jsOrLen, List.length_nil, bagNat, extractPhrases, ngramsJoin,
    conceptsOfTokens, CONCEPTS, ite_self, if_true]
  norm_num
  rfl

theorem emb_zz : pseudoEmbed ["zz".data] = List.replicate EMBED_DIM 0 :=
  pseudoEmbed_no_subwords _ (by decide)

theorem emb_nil : pseudoEmbed [] = List.replicate EMBED_DIM 0 :=
  pseudoEmbed_no_subwords _ rfl

theorem bm25_nil (idf : List (Str × ℝ)) (avg : ℝ) (f : Fact) :
    bm25Of [] idf avg f = 0 := rfl

theorem bm25_zz_factB (c : ℝ) (idf : List (Str × ℝ)) (avg : ℝ) :
    bm25Of [("zz".data, c)] idf avg factB = 0 := by
  have hlk : factB.bow.lookup "zz".data = none := by decide
  simp [bm25Of, hlk]

theorem bm25_zz_factA (c : ℝ) (idf : List (Str × ℝ)) (avg : ℝ) :
    bm25Of [("zz".data, c)] idf avg factA = 0 := by
  have hlk : factA.bow.lookup "zz".data = none := by decide
  simp [bm25Of, hlk]

theorem phrase_qcE (f : Fact) : phraseBoostOf qcE f = 0 := by
  unfold phraseBoostOf
  rw [show (f.phrases.filter fun p => qcE.queryPhrases.contains p) =
      (f.phrases.filter fun p => (([] : List Str).contains p)) from rfl]
  rw [filter_contains_nil]
  norm_num [qcE]

theorem phrase_qcZZ (f : Fact) : phraseBoostOf qcZZ f = 0 := by
  unfold phraseBoostOf
  rw [show (f.phrases.filter fun p => qcZZ.queryPhrases.contains p) =
      (f.phrases.filter fun p => (([] : List Str).contains p)) from rfl]
  rw [filter_contains_nil]
  norm_num [qcZZ]

theorem fuzzy_qcE (idf : List (Str × ℝ)) (f : Fact) : fuzzyBonusOf qcE idf f = 0 := by
  unfold fuzzyBonusOf
  rw [show (qcE.words.filter fun qt =>
      f.tokens.any fun tk => decide (0.5 < weightedTrigramSimilarity qt tk idf)) = [] from rfl]
  norm_num [qcE, jsOrLen]

theorem fuzzy_zz_short_tokens (idf : List (Str × ℝ)) (f : Fact)
    (h : ∀ tk ∈ f.tokens, generateSubwords tk = []) :
    fuzzyBonusOf qcZZ idf f = 0 := by
  unfold fuzzyBonusOf
  have hany : (f.tokens.any fun tk =>
      decide (0.5 < weightedTrigramSimilarity "zz".data tk idf)) = false := by
    rw [List.any_eq_false]
    intro tk htk
    rw [weightedTrigramSimilarity_short "zz".data tk idf (by decide) (h tk htk)]
    norm_num
  rw [show (qcZZ.words.filter fun qt =>
      f.tokens.any fun tk => decide (0.5 < weightedTrigramSimilarity qt tk idf)) =
      (["zz".data].filter fun _ =>
        f.tokens.any fun tk => decide (0.5 < weightedTrigramSimilarity "zz".data tk idf)) from rfl]
  rw [List.filter_cons]
  rw [hany]
  norm_num [qcZZ, jsOrLen]

theorem personalization_nil_profile (f : Fact) :
    ((conceptsOfFact f).foldl
      (fun s c => s + ((([] : List (Str × ℝ)).lookup c).getD 0)) 0) = 0 :=
  foldl_add_lookup_nil _

/-- Expansion of `scoreFact` into its signal components. -/
theorem scoreFact_formula (qc : QueryCtx) (ctx : Ctx) (idf : List (Str × ℝ))
    (avg t : ℝ) (f : Fact) :
    scoreFact qc ctx idf avg t f =
      (0.40 * bm25Of qc.qBow idf avg f + 0.20 * phraseBoostOf qc f +
        0.15 * fuzzyBonusOf qc idf f + 0.10 * cosl qc.qEmbedding f.embedding +
        (if ctx.currentTopic = some f.topic then 0.2 else 0) +
        (if ctx.currentCategory = some f.category then 0.15 else 0) +
        (if qc.queryConcepts.any (fun c => (conceptsOfFact f).contains c) then 0.15 else 0) +
        0.05 * (((conceptsOfFact f).foldl
          (fun s c => s + ((qc.userConceptProfile.lookup c).getD 0)) 0) /
            (jsOrLen qc.numQueries : ℝ)) +
        0.05 * freshnessOf t f +
        (match f.subtopics with
         | some sts => if sts.any (fun s => qc.querySubtopics.contains s) then 0.1 else 0
         | none => 0) +
        (if qc.queryCategories.contains f.category then 0.2 else 0)) * f.weight := rfl

theorem score_zz_factB (idf : List (Str × ℝ)) (avg t : ℝ) :
    scoreFact qcZZ ctx1 idf avg t factB = 0.16 := by
  rw [scoreFact_formula]
  rw [show bm25Of qcZZ.qBow idf avg factB = 0 from bm25_zz_factB _ idf avg]
  rw [phrase_qcZZ]
  rw [fuzzy_zz_short_tokens idf factB (by decide)]
  rw [show cosl qcZZ.qEmbedding factB.embedding = 0 from by
    rw [show qcZZ.qEmbedding = pseudoEmbed ["zz".data] from rfl, emb_zz]
    exact cosl_zero_left _ _]
  rw [if_pos (show ctx1.currentTopic = some factB.topic from rfl)]
  rw [if_neg (show ¬ ctx1.currentCategory = some factB.category from fun h =>
    Option.noConfusion h)]
  rw [show (qcZZ.queryConcepts.any fun c => (conceptsOfFact factB).contains c) = false from rfl]
  rw [show qcZZ.userConceptProfile = ([] : List (Str × ℝ)) from rfl]
  rw [personalization_nil_profile]
  rw [show freshnessOf t factB = 0 from by
    unfold freshnessOf
    rw [show factB.updatedAt = none from rfl]]
  rw [show factB.subtopics = (none : Option (List Str)) from rfl]
  rw [show (qcZZ.queryCategories.contains factB.category) = false from rfl]
  rw [factB_weight]
  norm_num

theorem score_zz_factA (idf : List (Str × ℝ)) (avg t : ℝ) :
    scoreFact qcZZ ctx1 idf avg t factA =
      (0.2 + 0.05 * max 0 (1 - (t - 0) / (1000 * 60 * 60 * 24 * 365))) * 0.8 := by
  rw [scoreFact_formula]
  rw [show bm25Of qcZZ.qBow idf avg factA = 0 from bm25_zz_factA _ idf avg]
  rw [phrase_qcZZ]
  rw [fuzzy_zz_short_tokens idf factA (by decide)]
  rw [show cosl qcZZ.qEmbedding factA.embedding = 0 from by
    rw [show qcZZ.qEmbedding = pseudoEmbed ["zz".data] from rfl, emb_zz]
    exact cosl_zero_left _ _]
  rw [if_pos (show ctx1.currentTopic = some factA.topic from rfl)]
  rw [if_neg (show ¬ ctx1.currentCategory = some factA.category from fun h =>
    Option.noConfusion h)]
  rw [if_neg (show ¬ ((qcZZ.queryConcepts.any fun c =>
    (conceptsOfFact factA).contains c) = true) from by decide)]
  rw [show qcZZ.userConceptProfile = ([] : List (Str × ℝ)) from rfl]
  rw [personalization_nil_profile]
  rw [show freshnessOf t factA = max 0 (1 - (t - 0) / (1000 * 60 * 60 * 24 * 365)) from by
    unfold freshnessOf
    rw [show factA.updatedAt = some 0 from rfl]]
  rw [show factA.subtopics = (none : Option (List Str)) from rfl]
  rw [if_neg (show ¬ ((qcZZ.queryCategories.contains factA.category) = true) from by decide)]
  rw [factA_weight]
  rw [show (jsOrLen qcZZ.numQueries : ℝ) = 1 from by norm_num [qcZZ, jsOrLen]]
  ring

theorem ranked_st1_eval : rankedOf "zz".data st1 0 = [RankedResult.mk factB 0.16] := by
  unfold rankedOf
  rw [queryCtx_zz_st1]
  unfold rankedOfQc
  rw [show st1.kb = [factB] from rfl, show st1.context = ctx1 from rfl]
  simp only [List.map]
  rw [score_zz_factB st1.idf st1.avgDocLen 0]
  simp only [List.filter_cons, List.filter_nil]
  rw [show (decide ((0.1 : ℝ) < (RankedResult.mk factB 0.16).score)) = true from
    decide_eq_true (by norm_num)]
  simp [List.insertionSort, List.orderedInsert]

theorem ranked_st4_eval (t sA : ℝ)
    (hsA : scoreFact qcZZ ctx1 st4.idf st4.avgDocLen t factA = sA) (h01 : 0.1 < sA) :
    rankedOf "zz".data st4 t =
      if sA ≤ (0.16 : ℝ) then [RankedResult.mk factB 0.16, RankedResult.mk factA sA]
      else [RankedResult.mk factA sA, RankedResult.mk factB 0.16] := by
  unfold rankedOf
  rw [queryCtx_zz_st4]
  unfold rankedOfQc
  rw [show st4.kb = [factB, factA] from rfl, show st4.context = ctx1 from rfl]
  simp only [List.map]
  rw [score_zz_factB st4.idf st4.avgDocLen t, hsA]
  simp only [List.filter_cons, List.filter_nil]
  rw [show (decide ((0.1 : ℝ) < (RankedResult.mk factB 0.16).score)) = true from
    decide_eq_true (by norm_num)]
  rw [show (decide ((0.1 : ℝ) < (RankedResult.mk factA sA).score)) = true from
    decide_eq_true h01]
  simp only [List.insertionSort, List.orderedInsert]

/- ---------- C1 ---------- -/

/-- C1: every `RankedResult` in the ranked list produced by `processQuery`'s
ranking step has score strictly greater than `0.1` — the filter at line 815
admits only `score > 0.1`, and the sort only permutes. -/
theorem C1_ranked_scores_above_threshold (q : Str) (st : EngineState) (t : ℝ)
    (r : RankedResult) (h : r ∈ rankedOf q st t) : 0.1 < r.score := by
  unfold rankedOf rankedOfQc at h
  have h2 := (List.perm_insertionSort _ _).mem_iff.mp h
  exact of_decide_eq_true (List.mem_filter.mp h2).2

/-- Witness for C1: on the concrete corpus `[factB]` with the session topic
set, the query `zz` ranks one document and its score exceeds `0.1`. -/
theorem C1_witness : 0.1 < (headRR (rankedOf "zz".data st1 0)).score := by
  have hm : RankedResult.mk factB 0.16 ∈ rankedOf "zz".data st1 0 := by
    rw [ranked_st1_eval]
    exact List.mem_singleton_self _
  have h := C1_ranked_scores_above_threshold "zz".data st1 0 _ hm
  rw [ranked_st1_eval]
  simpa [headRR] using h

/- ---------- C4 ---------- -/

/-- C4 is false as stated: the scoring reads the wall clock through
`freshnessScore` (line 807), so two runs of the ranking computation on an
identical corpus, session and query — differing only in `Date.now()` — can
return different ordered sequences.  Here document 1 carries
`updatedAt = 0`: at `t = 0` it outranks document 0, a year later the
freshness term has decayed to zero and the stable sort returns the opposite
order. -/
theorem C4_counterexample :
    (rankedOf "zz".data st4 0).map (fun r => r.fact.id) = [1, 0] ∧
    (rankedOf "zz".data st4 31536000000).map (fun r => r.fact.id) = [0, 1] := by
  have hA0 : scoreFact qcZZ ctx1 st4.idf st4.avgDocLen 0 factA = 0.2 := by
    rw [score_zz_factA]
    rw [show (1 - ((0 : ℝ) - 0) / (1000 * 60 * 60 * 24 * 365)) = 1 from by norm_num]
    rw [max_eq_right (by norm_num : (0 : ℝ) ≤ 1)]
    norm_num
  have hAY : scoreFact qcZZ ctx1 st4.idf st4.avgDocLen 31536000000 factA = 0.16 := by
    rw [score_zz_factA]
    rw [show (1 - ((31536000000 : ℝ) - 0) / (1000 * 60 * 60 * 24 * 365)) = 0 from by norm_num]
    rw [max_eq_right (by norm_num : (0 : ℝ) ≤ 0)]
    norm_num
  constructor
  · rw [ranked_st4_eval 0 0.2 hA0 (by norm_num)]
    rw [if_neg (by norm_num)]
    rw [show ([RankedResult.mk factA 0.2, RankedResult.mk factB 0.16].map
      (fun r => r.fact.id)) = [factA.id, factB.id] from rfl]
    rw [show factA.id = 1 from rfl, show factB.id = 0 from rfl]
  · rw [ranked_st4_eval 31536000000 0.16 hAY (by norm_num)]
    rw [if_pos (by norm_num)]
    rw [show ([RankedResult.mk factB 0.16, RankedResult.mk factA 0.16].map
      (fun r => r.fact.id)) = [factB.id, factA.id] from rfl]
    rw [show factA.id = 1 from rfl, show factB.id = 0 from rfl]

/-- C4 (amended): the ranking computation is deterministic as a function of
corpus, session state, query string *and current time*; when no document
carries `updatedAt` metadata the time dependence vanishes and repeated runs
at different times return the identical ordered sequence.  (At the
`processQuery` level, repeated identical queries also return the identical
cached response, by C9.) -/
theorem C4_rank_deterministic_without_updatedAt (q : Str) (st : EngineState)
    (t1 t2 : ℝ) (h : ∀ f ∈ st.kb, f.updatedAt = none) :
    rankedOf q st t1 = rankedOf q st t2 := by
  unfold rankedOf rankedOfQc
  have hmap : st.kb.map (fun f => RankedResult.mk f
      (scoreFact (queryCtxOf q st) st.context st.idf st.avgDocLen t1 f)) =
      st.kb.map (fun f => RankedResult.mk f
      (scoreFact (queryCtxOf q st) st.context st.idf st.avgDocLen t2 f)) := by
    apply List.map_congr_left
    intro f hf
    have hfr : ∀ t : ℝ, freshnessOf t f = 0 := fun t => by
      unfold freshnessOf
      rw [h f hf]
    rw [scoreFact_formula, scoreFact_formula, hfr t1, hfr t2]
  rw [hmap]

/-- Witness for C4 (amended) on the concrete corpus `[factB]` (no
`updatedAt`): ranking at times 3 and 7 coincides. -/
theorem C4_witness : rankedOf "zz".data st1 3 = rankedOf "zz".data st1 7 := by
  apply C4_rank_deterministic_without_updatedAt
  intro f hf
  have hB : f = factB := by simpa [st1] using hf
  rw [hB]
  rfl

/- ---------- C5 ---------- -/

theorem score_qcE_fresh (ctx : Ctx) (idf : List (Str × ℝ)) (avg t : ℝ) (f : Fact)
    (hct : ctx.currentTopic = none) (hcc : ctx.currentCategory = none) :
    scoreFact qcE ctx idf avg t f = 0.05 * freshnessOf t f * f.weight := by
  rw [scoreFact_formula]
  rw [show bm25Of qcE.qBow idf avg f = 0 from rfl]
  rw [phrase_qcE, fuzzy_qcE]
  rw [show cosl qcE.qEmbedding f.embedding = 0 from by
    rw [show qcE.qEmbedding = pseudoEmbed [] from rfl, emb_nil]
    exact cosl_zero_left _ _]
  rw [hct, hcc]
  rw [if_neg (show ¬ (none : Option Str) = some f.topic from fun h => Option.noConfusion h)]
  rw [if_neg (show ¬ (none : Option Str) = some f.category from fun h => Option.noConfusion h)]
  rw [if_neg (show ¬ ((qcE.queryConcepts.any fun c => (conceptsOfFact f).contains c) = true) from by
    rw [show (qcE.queryConcepts.any fun c => (conceptsOfFact f).contains c) = false from rfl]
    simp)]
  rw [show qcE.userConceptProfile = ([] : List (Str × ℝ)) from rfl, personalization_nil_profile]
  rw [if_neg (show ¬ ((qcE.queryCategories.contains f.category) = true) from by
    rw [show (qcE.queryCategories.contains f.category) = false from rfl]
    simp)]
  have hsb : (match f.subtopics with
      | some sts => if sts.any (fun s => qcE.querySubtopics.contains s) then (0.1 : ℝ) else 0
      | none => 0) = 0 := by
    rcases f.subtopics with _ | sts
    · rfl
    · simp only
      rw [show (sts.any fun s => qcE.querySubtopics.contains s) =
          (sts.any fun s => (([] : List Str).contains s)) from rfl]
      rw [any_contains_nil sts]
      simp
  rw [hsb]
  ring

theorem freshnessOf_nonneg (t : ℝ) (f : Fact) : 0 ≤ freshnessOf t f := by
  unfold freshnessOf
  rcases f.updatedAt with _ | u
  · exact le_refl 0
  · exact le_max_left 0 _

theorem freshnessOf_le_one (t : ℝ) (f : Fact)
    (h : ∀ u, f.updatedAt = some u → u ≤ t) : freshnessOf t f ≤ 1 := by
  unfold freshnessOf
  rcases hu : f.updatedAt with _ | u
  · norm_num
  · have hut := h u hu
    have hd : 0 ≤ (t - u) / (1000 * 60 * 60 * 24 * 365) :=
      div_nonneg (by linarith) (by norm_num)
    exact max_le (by norm_num) (by linarith)

theorem rankedQc_qcE_nil (st : EngineState) (t : ℝ)
    (hct : st.context.currentTopic = none) (hcc : st.context.currentCategory = none)
    (hw : ∀ f ∈ st.kb, 0 ≤ f.weight ∧ f.weight ≤ 1)
    (hu : ∀ f ∈ st.kb, ∀ u, f.updatedAt = some u → u ≤ t) :
    rankedOfQc qcE st t = [] := by
  unfold rankedOfQc
  have hfil : ((st.kb.map (fun f => RankedResult.mk f
      (scoreFact qcE st.context st.idf st.avgDocLen t f))).filter
      (fun r => decide ((0.1 : ℝ) < r.score))) = [] := by
    rw [List.filter_eq_nil_iff]
    intro r hr
    rcases List.mem_map.mp hr with ⟨f, hfk, rfl⟩
    simp only [decide_eq_true_eq]
    rw [score_qcE_fresh st.context st.idf st.avgDocLen t f hct hcc]
    intro hlt
    have h1 := freshnessOf_nonneg t f
    have h2 := freshnessOf_le_one t f (hu f hfk)
    have h3 := (hw f hfk).1
    have h4 := (hw f hfk).2
    nlinarith
  rw [hfil]
  rfl

/-- C5 (amended): the main engine's `processQuery` does not special-case
blank input at all — the only blank guard is the caller `handleSearch`'s
early `return` (which produces no response), and the canned
`Ask me anything!` reply exists only in the v3 engine's `blank()`.  On a
fresh session (no current topic/category, empty history, weights inside
`[0, 1]`, no future `updatedAt`), a query with no tokens falls through the
full ranking path to the no-match fallback, leaving the corpus untouched;
with session context set it can even rank documents and return a composed
document answer (see the counterexample). -/
theorem C5_blank_query_not_shortcircuited (q : Str) (st : EngineState) (t : ℝ)
    (rng : List Str → List Str)
    (hq : pureTokenize q = [])
    (hc : st.queryCache.lookup q = none)
    (hh : st.context.history = [])
    (hct : st.context.currentTopic = none)
    (hcc : st.context.currentCategory = none)
    (hw : ∀ f ∈ st.kb, 0 ≤ f.weight ∧ f.weight ≤ 1)
    (hu : ∀ f ∈ st.kb, ∀ u, f.updatedAt = some u → u ≤ t) :
    processQuery q st t rng =
      (noInfoResponse q st,
       { st with queryCache := jsMapSet st.queryCache q (noInfoResponse q st) }) := by
  unfold processQuery
  rw [hc]
  simp only [queryCtx_blank q st hq hh, rankedQc_qcE_nil st t hct hcc hw hu,
    List.isEmpty_nil, if_true]

/-- Witness for C5 (amended): the whitespace-only query on the fresh
session over `[factB]`. -/
theorem C5_witness :
    processQuery " ".data stFresh 0 (fun l => l) =
      (noInfoResponse " ".data stFresh,
       { stFresh with
         queryCache := jsMapSet stFresh.queryCache " ".data (noInfoResponse " ".data stFresh) }) := by
  apply C5_blank_query_not_shortcircuited
  · decide
  · rfl
  · rfl
  · rfl
  · rfl
  · intro f hf
    have hB : f = factB := by simpa [stFresh] using hf
    rw [hB, factB_weight]
    norm_num
  · intro f hf u hu2
    have hB : f = factB := by simpa [stFresh] using hf
    rw [hB] at hu2
    rw [show factB.updatedAt = none from rfl] at hu2
    exact Option.noConfusion hu2

theorem score_blank_factB (idf : List (Str × ℝ)) (avg t : ℝ) :
    scoreFact qcE ctx1 idf avg t factB = 0.16 := by
  rw [scoreFact_formula]
  rw [show bm25Of qcE.qBow idf avg factB = 0 from rfl]
  rw [phrase_qcE, fuzzy_qcE]
  rw [show cosl qcE.qEmbedding factB.embedding = 0 from by
    rw [show qcE.qEmbedding = pseudoEmbed [] from rfl, emb_nil]
    exact cosl_zero_left _ _]
  rw [if_pos (show ctx1.currentTopic = some factB.topic from rfl)]
  rw [if_neg (show ¬ ctx1.currentCategory = some factB.category from fun h =>
    Option.noConfusion h)]
  rw [if_neg (show ¬ ((qcE.queryConcepts.any fun c =>
    (conceptsOfFact factB).contains c) = true) from by decide)]
  rw [show qcE.userConceptProfile = ([] : List (Str × ℝ)) from rfl]
  rw [personalization_nil_profile]
  rw [show freshnessOf t factB = 0 from by
    unfold freshnessOf
    rw [show factB.updatedAt = none from rfl]]
  rw [show factB.subtopics = (none : Option (List Str)) from rfl]
  rw [if_neg (show ¬ ((qcE.queryCategories.contains factB.category) = true) from by decide)]
  rw [factB_weight]
  norm_num

theorem rankedQc_blank_st1 : rankedOfQc qcE st1 0 = [RankedResult.mk factB 0.16] := by
  unfold rankedOfQc
  rw [show st1.kb = [factB] from rfl, show st1.context = ctx1 from rfl]
  simp only [List.map]
  rw [score_blank_factB st1.idf st1.avgDocLen 0]
  simp only [List.filter_cons, List.filter_nil]
  rw [show (decide ((0.1 : ℝ) < (RankedResult.mk factB 0.16).score)) = true from
    decide_eq_true (by norm_num)]
  simp [List.insertionSort, List.orderedInsert]

/-- C5 is false as stated: with the session's current topic set to `t`, the
empty query is not short-circuited — `processQuery` runs the full ranking
path (context boost `0.2 · weight = 0.16 > 0.1` clears the threshold) and
returns a composed document answer, not the canned `Ask me anything!`
response. -/
theorem C5_counterexample :
    (processQuery ([] : Str) st1 0 (fun l => l)).1.topic = "t".data ∧
    (processQuery ([] : Str) st1 0 (fun l => l)).1.main = "cat ran<sup>[1]</sup>...".data ∧
    (processQuery ([] : Str) st1 0 (fun l => l)).1.main ≠ "Ask me anything!".data := by
  have htopic : (processQuery ([] : Str) st1 0 (fun l => l)).1.topic = "t".data := by
    unfold processQuery
    simp only [show List.lookup ([] : Str) st1.queryCache = (none : Option Response) from rfl,
      queryCtx_blank_st1, rankedQc_blank_st1]
    rfl
  have hmain : (processQuery ([] : Str) st1 0 (fun l => l)).1.main =
      "cat ran<sup>[1]</sup>...".data := by
    unfold processQuery
    simp only [show List.lookup ([] : Str) st1.queryCache = (none : Option Response) from rfl,
      queryCtx_blank_st1, rankedQc_blank_st1]
    rfl
  exact ⟨htopic, hmain, by rw [hmain]; decide⟩

/- ---------- Substring machinery for citation-marker reasoning ---------- -/

theorem startsWithCh_iff (p X : Str) : startsWithCh p X = true ↔ ∃ b, X = p ++ b := by
  induction p generalizing X with
  | nil =>
    simp only [startsWithCh, List.nil_append]
    exact ⟨fun _ => ⟨X, rfl⟩, fun _ => trivial⟩
  | cons a as ih =>
    cases X with
    | nil =>
      simp only [startsWithCh]
      constructor
      · intro h
        exact absurd h (by simp)
      · rintro ⟨b, hb⟩
        exact absurd hb (by simp)
    | cons x xs =>
      simp only [startsWithCh, Bool.and_eq_true, beq_iff_eq, ih, List.cons_append,
        List.cons.injEq]
      constructor
      · rintro ⟨hax, b, hxb⟩
        exact ⟨b, hax.symm, hxb⟩
      · rintro ⟨b, hxa, hxb⟩
        exact ⟨hxa.symm, b, hxb⟩

theorem containsStr_iff (X p : Str) : containsStr X p = true ↔ ∃ a b, X = a ++ p ++ b := by
  induction X with
  | nil =>
    simp only [containsStr, beq_iff_eq]
    constructor
    · intro h
      exact ⟨[], [], by simp [h]⟩
    · rintro ⟨a, b, hab⟩
      rcases List.append_eq_nil.mp (List.append_eq_nil.mp hab.symm).1 with ⟨_, hp⟩
      exact hp.symm ▸ rfl
  | cons c r ih =>
    simp only [containsStr, Bool.or_eq_true, startsWithCh_iff, ih]
    constructor
    · rintro (⟨b, hb⟩ | ⟨a, b, hab⟩)
      · exact ⟨[], b, by simpa using hb⟩
      · exact ⟨c :: a, b, by simp [hab]⟩
    · rintro ⟨a, b, hab⟩
      cases a with
      | nil => exact Or.inl ⟨b, by simpa using hab⟩
      | cons a0 as =>
        right
        rw [List.cons_append, List.cons_append, List.cons.injEq] at hab
        exact ⟨as, b, by simp [hab.2]⟩

theorem containsStr_append_left (a b p : Str) (h : containsStr a p = true) :
    containsStr (a ++ b) p = true := by
  rcases (containsStr_iff a p).mp h with ⟨x, y, hxy⟩
  exact (containsStr_iff _ _).mpr ⟨x, y ++ b, by simp [hxy]⟩

theorem containsStr_append_right (a b p : Str) (h : containsStr b p = true) :
    containsStr (a ++ b) p = true := by
  rcases (containsStr_iff b p).mp h with ⟨x, y, hxy⟩
  exact (containsStr_iff _ _).mpr ⟨a ++ x, y, by simp [hxy]⟩

theorem containsStr_suffix (x p : Str) : containsStr (x ++ p) p = true :=
  (containsStr_iff _ _).mpr ⟨x, [], by simp⟩

theorem containsStr_cons (c : Char) (x p : Str) (h : containsStr x p = true) :
    containsStr (c :: x) p = true :=
  containsStr_append_right [c] x p h

theorem containsStr_joinSpace (l : List Str) (x p : Str) (hx : x ∈ l)
    (h : containsStr x p = true) : containsStr (joinSpace l) p = true := by
  induction l with
  | nil => exact absurd hx (List.not_mem_nil x)
  | cons y ys ih =>
    cases ys with
    | nil =>
      rcases List.mem_singleton.mp hx with rfl
      exact h
    | cons z zs =>
      rcases List.mem_cons.mp hx with rfl | hmem
      · exact containsStr_append_left _ _ _ (containsStr_append_left _ _ _ h)
      · exact containsStr_append_right _ _ _ (ih hmem)

/- ---------- C7: citation-map vs composed-text consistency ---------- -/

/-- The citation-consistency property of the spec: every key of the citation
map has its marker present in the composed main text. -/
def citesConsistent (main : Str) (cites : List (ℕ × ℕ)) : Prop :=
  ∀ kv ∈ cites, containsStr main (markerStr kv.1) = true

theorem natMapSet_mem (m : List (ℕ × ℕ)) (k v : ℕ) (kv : ℕ × ℕ)
    (h : kv ∈ natMapSet m k v) : kv ∈ m ∨ kv.1 = k := by
  induction m with
  | nil =>
    simp only [natMapSet, List.mem_singleton] at h
    exact Or.inr (by rw [h])
  | cons p ps ih =>
    rcases p with ⟨k1, v1⟩
    simp only [natMapSet] at h
    by_cases hk : (k1 == k) = true
    · rw [if_pos hk] at h
      rcases List.mem_cons.mp h with rfl | hmem
      · have hke : k1 = k := by simpa using hk
        exact Or.inr hke
      · exact Or.inl (List.mem_cons_of_mem _ hmem)
    · rw [if_neg hk] at h
      rcases List.mem_cons.mp h with rfl | hmem
      · exact Or.inl (List.mem_cons_self _ _)
      · rcases ih hmem with h1 | h2
        · exact Or.inl (List.mem_cons_of_mem _ h1)
        · exact Or.inr h2

/-- One pass of the support loop preserves citation consistency when the
support template embeds the marker of its key. -/
theorem supportStep_pres (tpl : Str → ℕ → Str) (hl : Str → Str) (keyOf valOf : ℕ → ℕ)
    (htpl : ∀ t k, containsStr (tpl t k) (markerStr k) = true)
    (acc : Str × List (ℕ × ℕ) × ℕ) (is : ℕ × Str)
    (h : citesConsistent acc.1 acc.2.1) :
    citesConsistent (supportStep tpl hl keyOf valOf acc is).1
      (supportStep tpl hl keyOf valOf acc is).2.1 := by
  unfold supportStep
  by_cases hwc : acc.2.2 < 100
  · rw [if_pos hwc]
    intro kv hkv
    rcases natMapSet_mem _ _ _ _ hkv with hm | hk
    · exact containsStr_append_left _ _ _ (h kv hm)
    · show containsStr (acc.1 ++ ' ' :: tpl (hl (joinSpace ((wsSplit is.2).take
        (snippetLen acc.2.2)))) (keyOf is.1)) (markerStr kv.1) = true
      rw [hk]
      exact containsStr_append_right _ _ _ (containsStr_cons _ _ _ (htpl _ _))
  · rw [if_neg hwc]
    exact h

theorem foldl_supportStep_pres (tpl : Str → ℕ → Str) (hl : Str → Str) (keyOf valOf : ℕ → ℕ)
    (htpl : ∀ t k, containsStr (tpl t k) (markerStr k) = true) :
    ∀ (l : List (ℕ × Str)) (acc : Str × List (ℕ × ℕ) × ℕ),
      citesConsistent acc.1 acc.2.1 →
      citesConsistent (l.foldl (supportStep tpl hl keyOf valOf) acc).1
        (l.foldl (supportStep tpl hl keyOf valOf) acc).2.1 := by
  intro l
  induction l with
  | nil =>
    intro acc h
    exact h
  | cons p ps ih =>
    intro acc h
    simp only [List.foldl_cons]
    exact ih _ (supportStep_pres tpl hl keyOf valOf htpl acc p h)

/-- The whole support loop preserves citation consistency of the base text
and base citation map. -/
theorem composeSupports_pres (tpl : Str → ℕ → Str) (hl : Str → Str) (keyOf valOf : ℕ → ℕ)
    (htpl : ∀ t k, containsStr (tpl t k) (markerStr k) = true)
    (supports : List Str) (main0 : Str) (cites0 : List (ℕ × ℕ))
    (hbase : citesConsistent main0 cites0) :
    citesConsistent (composeSupports tpl hl keyOf valOf supports main0 cites0).1
      (composeSupports tpl hl keyOf valOf supports main0 cites0).2 := by
  unfold composeSupports
  exact foldl_supportStep_pres tpl hl keyOf valOf htpl supports.enum _ hbase

theorem tplSupportPlain_marker : ∀ t k, containsStr (tplSupportPlain t k) (markerStr k) = true :=
  fun t k => containsStr_suffix t (markerStr k)

theorem tplSupportLower_marker : ∀ t k, containsStr (tplSupportLower t k) (markerStr k) = true :=
  fun t k => containsStr_suffix (lowerStr t) (markerStr k)

/-- The general-structure recursion only appends to its accumulator. -/
theorem generalStructGo_append (hl : Str → Str) :
    ∀ (fs : List RankedResult) (prev : RankedResult) (i : ℕ) (acc : Str),
      ∃ b, generalStructGo hl prev i acc fs = acc ++ b := by
  intro fs
  induction fs with
  | nil =>
    intro prev i acc
    exact ⟨[], by simp [generalStructGo]⟩
  | cons f fs1 ih =>
    intro prev i acc
    have hstep : generalStructGo hl prev i acc (f :: fs1) =
        generalStructGo hl f (i + 1)
          (acc ++ ' ' :: genConnector prev f ++ ' ' :: lowerStr (hl f.fact.text) ++
            markerStr (i + 1)) fs1 := rfl
    rcases ih f (i + 1)
        (acc ++ ' ' :: genConnector prev f ++ ' ' :: lowerStr (hl f.fact.text) ++
          markerStr (i + 1)) with ⟨b, hb⟩
    refine ⟨' ' :: genConnector prev f ++ ' ' :: lowerStr (hl f.fact.text) ++
      markerStr (i + 1) ++ b, ?_⟩
    rw [hstep, hb]
    simp [List.append_assoc]

/-- Every marker with index in `(i, i + fs.length]` appears in the output of
the general-structure recursion started at position `i`. -/
theorem generalStructGo_marker (hl : Str → Str) :
    ∀ (fs : List RankedResult) (prev : RankedResult) (i : ℕ) (acc : Str) (k : ℕ),
      i + 1 ≤ k → k ≤ i + fs.length →
      containsStr (generalStructGo hl prev i acc fs) (markerStr k) = true := by
  intro fs
  induction fs with
  | nil =>
    intro prev i acc k h1 h2
    simp only [List.length_nil] at h2
    omega
  | cons f fs1 ih =>
    intro prev i acc k h1 h2
    have hstep : generalStructGo hl prev i acc (f :: fs1) =
        generalStructGo hl f (i + 1)
          (acc ++ ' ' :: genConnector prev f ++ ' ' :: lowerStr (hl f.fact.text) ++
            markerStr (i + 1)) fs1 := rfl
    rw [hstep]
    by_cases hk : k = i + 1
    · subst hk
      rcases generalStructGo_append hl fs1 f (i + 1)
          (acc ++ ' ' :: genConnector prev f ++ ' ' :: lowerStr (hl f.fact.text) ++
            markerStr (i + 1)) with ⟨b, hb⟩
      rw [hb]
      exact containsStr_append_left _ _ _ (containsStr_suffix _ _)
    · refine ih f (i + 1) _ k (by omega) ?_
      simp only [List.length_cons] at h2
      omega

/-- Every marker with index in `[1, facts.length]` appears in the general
structure text. -/
theorem generalStructure_marker (facts : List RankedResult) (hl : Str → Str) (k : ℕ)
    (h1 : 1 ≤ k) (h2 : k ≤ facts.length) :
    containsStr (generalStructure facts hl) (markerStr k) = true := by
  cases facts with
  | nil =>
    simp only [List.length_nil] at h2
    omega
  | cons f fs =>
    show containsStr (generalStructGo hl f 1 (hl f.fact.text ++ markerStr 1) fs)
      (markerStr k) = true
    by_cases hk : k = 1
    · subst hk
      rcases generalStructGo_append hl fs f 1 (hl f.fact.text ++ markerStr 1) with ⟨b, hb⟩
      rw [hb]
      exact containsStr_append_left _ _ _ (containsStr_suffix _ _)
    · refine generalStructGo_marker hl fs f 1 _ k (by omega) ?_
      simp only [List.length_cons] at h2
      omega

theorem foldl_citekeys_mem (l : List (ℕ × RankedResult)) :
    ∀ (m0 : List (ℕ × ℕ)) (kv : ℕ × ℕ),
      kv ∈ l.foldl (fun m p => natMapSet m (p.1 + 1) p.2.fact.id) m0 →
      kv ∈ m0 ∨ ∃ p ∈ l, kv.1 = p.1 + 1 := by
  induction l with
  | nil =>
    intro m0 kv h
    exact Or.inl h
  | cons p ps ih =>
    intro m0 kv h
    rw [List.foldl_cons] at h
    rcases ih _ kv h with hm | ⟨q, hq, hkq⟩
    · rcases natMapSet_mem _ _ _ _ hm with hm0 | hk
      · exact Or.inl hm0
      · exact Or.inr ⟨p, List.mem_cons_self p ps, hk⟩
    · exact Or.inr ⟨q, List.mem_cons_of_mem p hq, hkq⟩

/-- Keys of the fact-citation base map lie in `[1, facts.length]`. -/
theorem cites0_keys (facts : List RankedResult) (kv : ℕ × ℕ)
    (h : kv ∈ facts.enum.foldl (fun m p => natMapSet m (p.1 + 1) p.2.fact.id) []) :
    1 ≤ kv.1 ∧ kv.1 ≤ facts.length := by
  rcases foldl_citekeys_mem facts.enum [] kv h with hnil | ⟨p, hp, hk⟩
  · exact absurd hnil (List.not_mem_nil kv)
  · have hlt : p.1 < facts.length := by
      have hg := List.mem_enum_iff_getElem?.mp hp
      rcases List.getElem?_eq_some_iff.mp hg with ⟨hl, _⟩
      exact hl
    omega

theorem composeGeneralCore_consistent (facts : List RankedResult) (supports : List Str)
    (qt : List Str) :
    citesConsistent (composeGeneralCore facts supports qt).1
      (composeGeneralCore facts supports qt).2 := by
  unfold composeGeneralCore
  refine composeSupports_pres _ _ _ _ tplSupportLower_marker _ _ _ ?_
  intro kv hkv
  rcases cites0_keys facts kv hkv with ⟨h1, h2⟩
  exact generalStructure_marker facts _ kv.1 h1 h2

/-- Every marker with index in `[1, facts.length]` appears in the list
structure text. -/
theorem listStructure_marker (facts : List RankedResult) (hl : Str → Str) (k : ℕ)
    (h1 : 1 ≤ k) (h2 : k ≤ facts.length) :
    containsStr (listStructure facts hl) (markerStr k) = true := by
  have hi : k - 1 < facts.length := by omega
  have hmem : (k - 1, facts[k - 1]) ∈ facts.enum :=
    List.mem_enum_iff_getElem?.mpr (List.getElem?_eq_getElem hi)
  have hx : (toString (k - 1 + 1)).data ++ ". ".data ++ hl (facts[k - 1]).fact.text ++
      markerStr (k - 1 + 1) ∈ facts.enum.map
        (fun p => (toString (p.1 + 1)).data ++ ". ".data ++ hl p.2.fact.text ++
          markerStr (p.1 + 1)) :=
    List.mem_map.mpr ⟨(k - 1, facts[k - 1]), hmem, rfl⟩
  have hky : k - 1 + 1 = k := by omega
  rw [hky] at hx
  unfold listStructure
  exact containsStr_joinSpace _ _ _ hx (containsStr_suffix _ _)

/-- `composeListCore` with its lets unfolded. -/
theorem composeListCore_eq (facts : List RankedResult) (supports : List Str) (qt : List Str) :
    composeListCore facts supports qt =
      if supports.isEmpty = false ∧
          (wsSplit (listStructure facts (fun tx => highlightTokens tx qt))).length < 100 then
        Except.error ()
      else Except.ok (listStructure facts (fun tx => highlightTokens tx qt),
        facts.enum.foldl (fun m p => natMapSet m (p.1 + 1) p.2.fact.id) []) := rfl

/-- Completing (non-throwing) list compositions are citation-consistent
before the final cut: their citation map holds exactly the fact keys, whose
markers the numbered list structure embeds. -/
theorem composeListCore_ok_consistent (facts : List RankedResult) (supports : List Str)
    (qt : List Str) (out : Str × List (ℕ × ℕ))
    (h : composeListCore facts supports qt = Except.ok out) :
    citesConsistent out.1 out.2 := by
  rw [composeListCore_eq] at h
  by_cases hc : supports.isEmpty = false ∧
      (wsSplit (listStructure facts (fun tx => highlightTokens tx qt))).length < 100
  · rw [if_pos hc] at h
    exact absurd h (by simp)
  · rw [if_neg hc] at h
    have hout : out = (listStructure facts (fun tx => highlightTokens tx qt),
        facts.enum.foldl (fun m p => natMapSet m (p.1 + 1) p.2.fact.id) []) := by
      injection h with h1
      exact h1.symm
    rw [hout]
    intro kv hkv
    rcases cites0_keys facts kv hkv with ⟨h1, h2⟩
    show containsStr (listStructure facts (fun tx => highlightTokens tx qt))
      (markerStr kv.1) = true
    exact listStructure_marker facts _ kv.1 h1 h2

/-- The list composer throws its `TypeError` exactly when it attempts a
support append: a support exists and the structure text is under the
100-word budget. -/
theorem composeListCore_error_iff (facts : List RankedResult) (supports : List Str)
    (qt : List Str) :
    composeListCore facts supports qt = Except.error () ↔
      supports.isEmpty = false ∧
        (wsSplit (listStructure facts (fun tx => highlightTokens tx qt))).length < 100 := by
  rw [composeListCore_eq]
  by_cases hc : supports.isEmpty = false ∧
      (wsSplit (listStructure facts (fun tx => highlightTokens tx qt))).length < 100
  · rw [if_pos hc]
    exact iff_of_true rfl hc
  · rw [if_neg hc]
    exact iff_of_false (by simp) hc

theorem composeDefinitionCore_consistent (mainFact : RankedResult) (supports : List Str)
    (qt : List Str) (tm : Str) :
    citesConsistent (composeDefinitionCore mainFact supports qt tm).1
      (composeDefinitionCore mainFact supports qt tm).2 := by
  unfold composeDefinitionCore
  refine composeSupports_pres _ _ _ _ tplSupportPlain_marker _ _ _ ?_
  intro kv hkv
  rcases List.mem_singleton.mp hkv with rfl
  exact containsStr_suffix _ _

/-- A document whose text is 101 copies of the word `w`: long enough that the
final 100-word cut of the composers drops its own citation marker. -/
noncomputable def factLong : Fact :=
  ⟨0, joinSpace (List.replicate 101 "w".data), [], "t".data, "t".data, none, none, none,
   [], [], 0, [], [], [], 0, 0, 0, 0⟩

/-- `factLong` as a ranked result. -/
noncomputable def rrLong : RankedResult := ⟨factLong, 0⟩

set_option maxRecDepth 40000 in
/-- C7 is false as stated for the returned (truncated) responses: composing
the general answer for a single 101-word document yields a citation map
containing key 1, while the 100-word cut removed the trailing `<sup>[1]</sup>`
marker from the main text. -/
theorem C7_counterexample :
    (1, factLong.id) ∈ (composeGeneral [rrLong] [] []).2 ∧
    containsStr (composeGeneral [rrLong] [] []).1 (markerStr 1) = false := by
  constructor
  · decide
  · decide

/-- C7, corrected: before the final word-budget truncation the citation map
is consistent with the composed text — for the general and definition
composers every key in the citation map has its `<sup>[k]</sup>` marker
present in the pre-truncation main text, and the same holds of every list
composition that completes.  The truncation `finalizeMain` may subsequently
drop markers while their keys survive in the map (the counterexample), and
the list composer never performs a support append at all: it throws a
`TypeError` (assignment to its `const main`) exactly when a support exists
and the structure text is under the 100-word budget. -/
theorem C7_citation_markers_before_truncation :
    (∀ (facts : List RankedResult) (supports : List Str) (qt : List Str),
      citesConsistent (composeGeneralCore facts supports qt).1
        (composeGeneralCore facts supports qt).2) ∧
    (∀ (facts : List RankedResult) (supports : List Str) (qt : List Str)
        (out : Str × List (ℕ × ℕ)),
      composeListCore facts supports qt = Except.ok out →
        citesConsistent out.1 out.2) ∧
    (∀ (facts : List RankedResult) (supports : List Str) (qt : List Str),
      composeListCore facts supports qt = Except.error () ↔
        supports.isEmpty = false ∧
          (wsSplit (listStructure facts (fun tx => highlightTokens tx qt))).length < 100) ∧
    (∀ (mainFact : RankedResult) (supports : List Str) (qt : List Str) (tm : Str),
      citesConsistent (composeDefinitionCore mainFact supports qt tm).1
        (composeDefinitionCore mainFact supports qt tm).2) :=
  ⟨composeGeneralCore_consistent, composeListCore_ok_consistent,
   composeListCore_error_iff, composeDefinitionCore_consistent⟩

set_option maxRecDepth 40000 in
/-- Concrete instantiation of the corrected C7 statement: for the single-fact
general composition over `factLong`, key 1 is in the citation map and its
marker is present in the pre-truncation text. -/
theorem C7_citation_markers_witness :
    containsStr (composeGeneralCore [rrLong] [] []).1 (markerStr 1) = true :=
  C7_citation_markers_before_truncation.1 [rrLong] [] [] (1, factLong.id) (by decide)

end Nova
